import Mathlib

/-!
Verification development for the `mxj` XML ↔ generic-map codec (`xml.go`).

The Go source is shallowly embedded: the dynamically typed `interface{}`
tree becomes the inductive `GoValue`; Go's `map[string]interface{}` is
modelled as an association list with insert-or-replace update (Go map
iteration order, which is unspecified, is modelled by the list order, and
order-independence of the encoder is proved explicitly); the external
`encoding/xml` tokenizer is modelled as a list of events; recursive Go
functions are embedded with an explicit fuel parameter (Go recursion always
terminates on finite event streams, and every theorem either quantifies
over fuel or supplies ample fuel).
-/

namespace Mxj

/-- A Go `float64` value as produced by `strconv.ParseFloat`.  The finite
case is kept as the exact decimal `num * 10 ^ exp10` read from the string;
IEEE-754 rounding, overflow to infinity with `ErrRange`, hexadecimal float
syntax and underscore digit separators are abstracted away (no claim
depends on them). -/
inductive GoFloat where
  | finite (num : Int) (exp10 : Int)
  | posInf
  | negInf
  | nan
  deriving DecidableEq

/-- The dynamic `interface{}` values that flow through `xml.go`:
`str` = `string`, `bytes` = `[]byte` (content kept as a string),
`boolean` = `bool`, `int64` = the signed integer kinds (`int`/`int64`),
`uint64` = `uint64` (produced by the `strconv.ParseUint` branch of `cast`),
`float` = `float64`, `obj` = `map[string]interface{}`,
`arr` = `[]interface{}`, `mapSlice` = `[]map[string]interface{}` (a value
`encoding/xml.Marshal` always rejects, used to exercise the encoder's
`UNKNOWN` fallback), `structVal` = a Go struct together with the result of
the external `encoding/xml.Marshal` call on it (`none` = that call fails),
`nilVal` = the untyped `nil`. -/
inductive GoValue where
  | str (s : String)
  | bytes (s : String)
  | boolean (b : Bool)
  | int64 (i : Int)
  | uint64 (n : Nat)
  | float (f : GoFloat)
  | obj (m : List (String × GoValue))
  | arr (l : List GoValue)
  | mapSlice (l : List (List (String × GoValue)))
  | structVal (marshal : Option String)
  | nilVal

/-- Association list standing for a Go `map[string]interface{}`. -/
abbrev AList := List (String × GoValue)

/-- Go map assignment `m[k] = v`: replace the entry for `k` if present,
otherwise add it. -/
def mapSet (m : AList) (k : String) (v : GoValue) : AList :=
  match m with
  | [] => [(k, v)]
  | (k', v') :: rest =>
    if k' = k then (k, v) :: rest else (k', v') :: mapSet rest k v

/-- Go map read `m[k]` (comma-ok form). -/
def mapGet (m : AList) (k : String) : Option GoValue :=
  match m with
  | [] => none
  | (k', v') :: rest => if k' = k then some v' else mapGet rest k

/-- Lower-case one character (ASCII). -/
def charToLower (c : Char) : Char :=
  if 'A' ≤ c ∧ c ≤ 'Z' then Char.ofNat (c.toNat + 32) else c

/-- Modelled from `strings.ToLower` (ASCII range; the full Unicode case
mapping is abstracted away). -/
def strToLower (s : String) : String :=
  String.mk (s.data.map charToLower)

/-- Modelled from `strings.Replace(s, "-", "_", -1)`: the pattern is a
single character, so the replacement is a character map. -/
def snakeCase (s : String) : String :=
  String.mk (s.data.map (fun c => if c = '-' then '_' else c))

/-- Go's `<` on strings (bytewise lexicographic; on UTF-8 this equals the
codepoint order used here). -/
def goStrLt : List Char → List Char → Bool
  | [], [] => false
  | [], _ :: _ => true
  | _ :: _, [] => false
  | a :: as, b :: bs => if a < b then true else if b < a then false else goStrLt as bs

/-- Go's `<=` on strings, as used by the sort comparators of
lines 1437–1439 and 1451–1453. -/
def strLe (a b : String) : Bool := !(goStrLt b.data a.data)


/-! ### Models of the external `strconv` parsing functions

These functions live in the Go standard library, outside this repository;
they are modelled here from their documented behaviour. -/

/-- Decimal digits of a character list, `none` if empty or a non-digit
occurs (the digit part of `strconv.ParseInt`/`ParseUint` with base 10). -/
def digitsToNat : List Char → Option Nat
  | [] => none
  | cs =>
    if cs.all (fun c => c.isDigit) then
      some (cs.foldl (fun n c => n * 10 + (c.toNat - '0'.toNat)) 0)
    else none

/-- Modelled from `strconv.ParseInt(s, 10, 64)`: optional sign, at least
one decimal digit, value within the `int64` range. -/
def goParseInt (s : String) : Option Int :=
  match s.data with
  | [] => none
  | c :: rest =>
    let (neg, ds) :=
      if c = '-' then (true, rest)
      else if c = '+' then (false, rest)
      else (false, c :: rest)
    match digitsToNat ds with
    | none => none
    | some n =>
      let v : Int := if neg then -(n : Int) else (n : Int)
      if -(2 ^ 63) ≤ v ∧ v ≤ 2 ^ 63 - 1 then some v else none

/-- Modelled from `strconv.ParseUint(s, 10, 64)`: no sign permitted, at
least one decimal digit, value below `2^64`. -/
def goParseUint (s : String) : Option Nat :=
  match digitsToNat s.data with
  | none => none
  | some n => if n < 2 ^ 64 then some n else none

/-- Modelled from `strconv.ParseBool`: exactly the listed spellings. -/
def goParseBool (s : String) : Option Bool :=
  if s = "1" ∨ s = "t" ∨ s = "T" ∨ s = "true" ∨ s = "TRUE" ∨ s = "True" then
    some true
  else if s = "0" ∨ s = "f" ∨ s = "F" ∨ s = "false" ∨ s = "FALSE" ∨ s = "False" then
    some false
  else none

/-- Leading decimal digits of a character list, with the rest. -/
def spanDigits (cs : List Char) : List Char × List Char :=
  match cs with
  | [] => ([], [])
  | c :: rest =>
    if c.isDigit then
      let (d, r) := spanDigits rest
      (c :: d, r)
    else ([], cs)

/-- Digit list to the natural number it denotes (empty list gives 0). -/
def digitsVal (cs : List Char) : Nat :=
  cs.foldl (fun n c => n * 10 + (c.toNat - '0'.toNat)) 0

/-- Modelled from `strconv.ParseFloat(s, 64)`: optional sign, then either
the special spellings `inf`/`infinity` (any case; `nan` only unsigned) or
a decimal mantissa (digits with at most one dot, at least one digit) with
an optional `e`/`E` exponent.  The whole string must be consumed. -/
def goParseFloat (s : String) : Option GoFloat :=
  let low := strToLower s
  if low = "nan" then some GoFloat.nan
  else if low = "inf" ∨ low = "+inf" ∨ low = "infinity" ∨ low = "+infinity" then
    some GoFloat.posInf
  else if low = "-inf" ∨ low = "-infinity" then some GoFloat.negInf
  else
    match s.data with
    | [] => none
    | c :: rest =>
      let (neg, cs) :=
        if c = '-' then (true, rest)
        else if c = '+' then (false, rest)
        else (false, c :: rest)
      let (intDs, cs1) := spanDigits cs
      let (fracDs, cs2) :=
        match cs1 with
        | '.' :: r =>
          let (d, r') := spanDigits r
          (d, r')
        | _ => ([], cs1)
      if intDs.isEmpty ∧ fracDs.isEmpty then none
      else
        let mant : Nat := digitsVal (intDs ++ fracDs)
        let contFrom : Int → Option GoFloat := fun e =>
          let num : Int := if neg then -(mant : Int) else (mant : Int)
          some (GoFloat.finite num (e - (fracDs.length : Int)))
        match cs2 with
        | [] => contFrom 0
        | e :: r3 =>
          if e = 'e' ∨ e = 'E' then
            let (eneg, r4) :=
              match r3 with
              | '-' :: r => (true, r)
              | '+' :: r => (false, r)
              | _ => (false, r3)
            let (expDs, r5) := spanDigits r4
            if expDs.isEmpty ∨ ¬ r5.isEmpty then none
            else contFrom (if eneg then -(digitsVal expDs : Int) else (digitsVal expDs : Int))
          else none

/-! ### Configuration

The Go package keeps its policy in process-wide variables; following the
spec's design note they are gathered into one explicit value.  The field
defaults are the Go variables' initial values. -/

/-- Process-wide configuration of `xml.go`, made explicit.  `attrPre` is
the variable `attrPrefix`, `textK` the reserved text key. -/
structure MxjConfig where
  lowerCase : Bool := false
  snakeCaseKeys : Bool := false
  attrPre : String := "-"
  includeTagSeqNum : Bool := false
  handleXMPPStreamTag : Bool := false
  decodeSimpleValuesAsMap : Bool := false
  trimRunes : String := "\t\r\x08\n "
  castNanInf : Bool := false
  castToInt : Bool := false
  castToFloat : Bool := true
  castToBool : Bool := true
  checkTagToSkip : Option (String → Bool) := none
  xmlEscapeChars : Bool := false
  xmlEscapeCharsDecoder : Bool := false
  useGoXmlEmptyElem : Bool := false  -- the Go variable named after the Go empty-element style toggle
  xmlCheckIsValid : Bool := false
  textK : String := "$"

/-- The package's default configuration. -/
def dc : MxjConfig := {}

/-- Modelled from the spec: `escapeChars` is defined in another file of
this repository that is not under `src/`.  Per the spec it replaces
`&`→`&amp;`, `<`→`&lt;`, `>`→`&gt;`, `"`→`&quot;`, `'`→`&apos;`, ordered
so that ampersands introduced by earlier substitutions are not re-escaped
(achieved here by a single character-by-character pass). -/
def escapeChars (s : String) : String :=
  s.data.foldr
    (fun c acc =>
      (if c = '&' then "&amp;"
       else if c = '<' then "&lt;"
       else if c = '>' then "&gt;"
       else if c = '"' then "&quot;"
       else if c = Char.ofNat 39 then "&apos;"
       else String.singleton c) ++ acc)
    ""

/-- Modelled from `strings.Trim`: remove the characters of `cutset` from
both ends of `s`. -/
def trimChars (s : String) (cutset : String) : String :=
  let isCut := fun c => cutset.data.contains c
  String.mk (((s.data.dropWhile isCut).reverse.dropWhile isCut).reverse)

/-- The `cast` function of `xml.go` (lines 558–605): per-key skip hook,
then — only when `r` is set — the NaN/Inf screen, optional signed then
unsigned 64-bit integer parse, optional 64-bit float parse, and the
guarded boolean parse; the first success wins, otherwise the original
string is returned. -/
def cast (cfg : MxjConfig) (s : String) (r : Bool) (t : String) : GoValue :=
  let skip : Bool :=
    match cfg.checkTagToSkip with
    | some f => (t != "") && f t
    | none => false
  if skip then GoValue.str s
  else if r then
    if !cfg.castNanInf && (strToLower s == "nan" || strToLower s == "inf" || strToLower s == "-inf") then
      GoValue.str s
    else
      match (if cfg.castToInt then goParseInt s else none) with
      | some i => GoValue.int64 i
      | none =>
        match (if cfg.castToInt then goParseUint s else none) with
        | some u => GoValue.uint64 u
        | none =>
          match (if cfg.castToFloat then goParseFloat s else none) with
          | some f => GoValue.float f
          | none =>
            if cfg.castToBool && decide (0 < s.length) && decide (s.length < 6) &&
                (s.take 1 == "t" || s.take 1 == "T" || s.take 1 == "f" || s.take 1 == "F") then
              match goParseBool s with
              | some b => GoValue.boolean b
              | none => GoValue.str s
            else GoValue.str s
  else GoValue.str s

/-! ### The decoder (`xmlToMapParser`, lines 376–542)

The external `encoding/xml` tokenizer is modelled as a list of events.
`Tok.misc` stands for the token kinds the parser ignores (comments,
directives, processing instructions); `Tok.errTok` is a tokenizer error
carrying its message; running off the end of the list is `io.EOF`.  A Go
self-closing tag `<e/>` is delivered by the tokenizer as the same two
events `start`/`endEl` as `<e></e>`. -/

/-- One event from the external XML tokenizer. -/
inductive Tok where
  | start (name : String) (attrs : List (String × String))
  | endEl
  | chardata (s : String)
  | misc
  | errTok (msg : String)
  deriving DecidableEq

/-- Decode failure: `eofErr` models Go's distinguished `io.EOF` value;
`tokenErr` a non-EOF tokenizer error (carrying the raw message, which the
parser wraps, see `peMessage`); `nilMapPanic` the Go runtime panic from
writing to the nil map of the top-level frame; `fuelOut` is an artifact of
the fuel embedding, unreachable when enough fuel is supplied. -/
inductive PErr where
  | eofErr
  | tokenErr (raw : String)
  | nilMapPanic
  | fuelOut
  deriving DecidableEq

/-- The `error.Error()` string of a decode failure as Go produces it. -/
def peMessage : PErr → String
  | PErr.eofErr => "EOF"
  | PErr.tokenErr raw => "xml.Decoder.Token() - " ++ raw
  | PErr.nilMapPanic => "panic: assignment to entry in nil map"
  | PErr.fuelOut => "fuel exhausted"

/-- Key normalization applied to an element tag on entry (lines 377–382):
optional lower-casing, then optional `-`→`_` snake-casing. -/
def normTag (cfg : MxjConfig) (skey : String) : String :=
  let s := if cfg.lowerCase then strToLower skey else skey
  if cfg.snakeCaseKeys then snakeCase s else s

/-- Key built for an attribute (lines 398–404): snake-case the local name,
prepend the attribute prefix, then lower-case the whole key. -/
def attrKeyOf (cfg : MxjConfig) (nm : String) : String :=
  let l := if cfg.snakeCaseKeys then snakeCase nm else nm
  let key := cfg.attrPre ++ l
  if cfg.lowerCase then strToLower key else key

/-- Load the attribute list into the member map `na` (lines 396–411). -/
def loadAttrs (cfg : MxjConfig) (r : Bool) (a : List (String × String)) : AList :=
  a.foldl
    (fun na kv =>
      let key := attrKeyOf cfg kv.1
      let v := if cfg.xmlEscapeCharsDecoder then escapeChars kv.2 else kv.2
      mapSet na key (cast cfg v r key))
    []

/-- The duplicate-key merge of lines 485–497: a fresh key is saved as a
singleton; an existing non-list entry is promoted to a list holding the
prior value, and the new value is appended. -/
def addChild (na : AList) (key : String) (val : GoValue) : AList :=
  match mapGet na key with
  | some v =>
    let a := match v with
             | GoValue.arr l => l
             | _ => [v]
    mapSet na key (GoValue.arr (a ++ [val]))
  | none => mapSet na key val

/-- The `IncludeTagSeqNum` augmentation of lines 467–480: lists are left
alone, maps get a `_seq` entry, any other non-nil value is wrapped into a
map with the text key and `_seq`. -/
def seqAugment (cfg : MxjConfig) (val : GoValue) (seq : Nat) : GoValue × Nat :=
  if cfg.includeTagSeqNum then
    match val with
    | GoValue.arr _ => (val, seq)
    | GoValue.obj m => (GoValue.obj (mapSet m "_seq" (GoValue.int64 seq)), seq + 1)
    | GoValue.nilVal => (val, seq)
    | v => (GoValue.obj (mapSet (mapSet [] cfg.textK v) "_seq" (GoValue.int64 seq)), seq + 1)
  else (val, seq)

/-- Frame initialization of `xmlToMapParser` (lines 377–412): normalize
the key and, for a non-top frame, load its attributes. -/
def initFrame (cfg : MxjConfig) (r : Bool) (skey : String)
    (a : List (String × String)) : String × AList :=
  let k := normTag cfg skey
  (k, if k ≠ "" then loadAttrs cfg r a else [])

/-- The token loop of `xmlToMapParser` (lines 419–541).  `k` is the
normalized element key (`""` for the top-level frame, whose maps `n`/`na`
are Go nil maps), `n` the element's own map, `na` its member map, `seq`
the `IncludeTagSeqNum` counter.  On success it returns the singleton map
for the element and the unconsumed remainder of the event stream;
recursion is by fuel, one unit per loop step. -/
def parseLoop (cfg : MxjConfig) (r : Bool) :
    Nat → String → AList → AList → Nat → List Tok → Except PErr (AList × List Tok)
  | 0, _, _, _, _, _ => Except.error PErr.fuelOut
  | Nat.succ fuel, k, n, na, seq, toks =>
    match toks with
    | [] => Except.error PErr.eofErr
    | t :: rest =>
      match t with
      | Tok.errTok msg => Except.error (PErr.tokenErr msg)
      | Tok.misc => parseLoop cfg r fuel k n na seq rest
      | Tok.start name attrs =>
        let (ck, cna) := initFrame cfg r name attrs
        let childRes :=
          if cfg.handleXMPPStreamTag ∧ ck = "stream" then
            Except.ok ([(ck, GoValue.obj cna)], rest)
          else parseLoop cfg r fuel ck [] cna 0 rest
        if k = "" then childRes
        else
          match childRes with
          | Except.error e => Except.error e
          | Except.ok (nn, rest') =>
            let (key, val) := nn.headD ("", GoValue.nilVal)
            let (val, seq') := seqAugment cfg val seq
            parseLoop cfg r fuel k n (addChild na key val) seq' rest'
      | Tok.endEl =>
        if k = "" then Except.error PErr.nilMapPanic
        else if n.length = 0 then
          if na.length > 0 then Except.ok ([(k, GoValue.obj na)], rest)
          else Except.ok ([(k, GoValue.str "")], rest)
        else if n.length = 1 ∧ na.length > 0 then
          let na' := n.foldl (fun m kv => mapSet m cfg.textK kv.2) na
          Except.ok ([(k, GoValue.obj na')], rest)
        else Except.ok (n, rest)
      | Tok.chardata s =>
        let tt := trimChars s cfg.trimRunes
        let tt := if cfg.xmlEscapeCharsDecoder then escapeChars tt else tt
        if tt.length > 0 then
          if na.length > 0 ∨ cfg.decodeSimpleValuesAsMap then
            if k = "" then Except.error PErr.nilMapPanic
            else parseLoop cfg r fuel k n (mapSet na cfg.textK (cast cfg tt r cfg.textK)) seq rest
          else if k ≠ "" then
            parseLoop cfg r fuel k (mapSet n k (cast cfg tt r k)) na seq rest
          else parseLoop cfg r fuel k n na seq rest
        else parseLoop cfg r fuel k n na seq rest

/-- `xmlToMapParser` (lines 376–542): initialize the frame, short-circuit
the XMPP stream tag, then run the token loop.  The entry point of
`NewMapXml`/`NewMapXmlReader` is the call with `skey = ""`. -/
def xmlToMapParser (cfg : MxjConfig) (r : Bool) (fuel : Nat) (skey : String)
    (a : List (String × String)) (toks : List Tok) : Except PErr (AList × List Tok) :=
  let (k, na) := initFrame cfg r skey a
  if cfg.handleXMPPStreamTag ∧ k = "stream" then
    Except.ok ([(k, GoValue.obj na)], toks)
  else parseLoop cfg r fuel k [] na 0 toks

/-! ### The encoder (`marshalMapToXmlIndent`, lines 1028–1423)

The Go function appends to a shared `bytes.Buffer`; here every call
returns the string it appends, and an error carries the partial output
written before the failure (the buffer's content at `return err`).  The
`pretty` state is copied on entry exactly as in Go; since the children
loop brackets every non-list child with `Indent`/`Outdent`, which are
exact inverses, the loop state between children is the frame's own `p`.
The final dead `p.Outdent()` of the Go function mutates only the local
copy and is omitted. -/

/-- The `pretty` indentation state (lines 1005–1023). -/
structure Pretty where
  indent : String
  cnt : Nat
  padding : String
  mapDepth : Nat
  start : Nat

/-- `pretty.Indent` (lines 1013–1016). -/
def Pretty.indentP (p : Pretty) : Pretty :=
  { p with padding := p.padding ++ p.indent, cnt := p.cnt + 1 }

/-- `pretty.Outdent` (lines 1018–1023). -/
def Pretty.outdentP (p : Pretty) : Pretty :=
  if p.cnt > 0 then
    let pad := String.mk (p.padding.data.take (p.padding.data.length - p.indent.data.length))
    { p with padding := pad, cnt := p.cnt - 1 }
  else p

/-- Strip trailing `'0'` characters. -/
def stripTrailingZeros (cs : List Char) : List Char :=
  (cs.reverse.dropWhile (fun c => c == '0')).reverse

/-- Left-pad with `'0'` to width `k`. -/
def padZeros (k : Nat) (s : String) : String :=
  String.mk (List.replicate (k - s.length) '0') ++ s

/-- Modelled from `fmt.Sprintf("%v", f)` on a `float64`: the shortest
plain decimal rendering.  The `%g` switch to exponent notation for very
large or very small magnitudes is abstracted away (no claim reaches it). -/
def goFmtFloat : GoFloat → String
  | GoFloat.nan => "NaN"
  | GoFloat.posInf => "+Inf"
  | GoFloat.negInf => "-Inf"
  | GoFloat.finite num e =>
    if 0 ≤ e then toString (num * 10 ^ e.toNat)
    else
      let k := (-e).toNat
      let m := num.natAbs
      let ip := m / 10 ^ k
      let fr := m % 10 ^ k
      let frS := String.mk (stripTrailingZeros (padZeros k (toString fr)).data)
      let sign := if num < 0 then "-" else ""
      if frS = "" then sign ++ toString ip else sign ++ toString ip ++ "." ++ frS

/-- Modelled from `fmt.Sprintf("%v", v)`.  The encoder only reaches this
on scalar values (strings and byte slices are pre-converted); the
composite branches are rough placeholders, unreachable on
decoder-produced values and unused by any theorem. -/
def goFmtValue : GoValue → String
  | GoValue.str s => s
  | GoValue.bytes s => s
  | GoValue.boolean b => if b then "true" else "false"
  | GoValue.int64 i => toString i
  | GoValue.uint64 n => toString n
  | GoValue.float f => goFmtFloat f
  | GoValue.obj _ => "map[]"
  | GoValue.arr _ => "[]"
  | GoValue.mapSlice _ => "[]"
  | GoValue.structVal _ => "struct"
  | GoValue.nilVal => "<nil>"

/-- The Go `%T` type string of a value, used in the invalid-attribute
error message. -/
def goTypeName : GoValue → String
  | GoValue.str _ => "string"
  | GoValue.bytes _ => "[]uint8"
  | GoValue.boolean _ => "bool"
  | GoValue.int64 _ => "int64"
  | GoValue.uint64 _ => "uint64"
  | GoValue.float _ => "float64"
  | GoValue.obj _ => "map[string]interface \x7b\x7d"
  | GoValue.arr _ => "[]interface \x7b\x7d"
  | GoValue.mapSlice _ => "[]map[string]interface \x7b\x7d"
  | GoValue.structVal _ => "struct"
  | GoValue.nilVal => "<nil>"

/-- Is `k` an attribute key (line 1103 / 1223): non-empty configured
prefix, strictly shorter than the key, and a prefix of it. -/
def isAttrKeyB (cfg : MxjConfig) (k : String) : Bool :=
  decide (0 < cfg.attrPre.length) && decide (cfg.attrPre.length < k.length) &&
    cfg.attrPre.data.isPrefixOf k.data

/-- Render one attribute value (the type switch of lines 1104–1126):
strings and byte slices (optionally escaped), numbers and booleans via
`%v`; anything else — including `uint64`, which Go's switch does not
list — is invalid. -/
def attrVal (cfg : MxjConfig) : GoValue → Option String
  | GoValue.str s => some (if cfg.xmlEscapeChars then escapeChars s else s)
  | GoValue.float f => some (goFmtFloat f)
  | GoValue.boolean b => some (if b then "true" else "false")
  | GoValue.int64 i => some (toString i)
  | GoValue.bytes s => some (if cfg.xmlEscapeChars then escapeChars s else s)
  | _ => none

/-- Error-propagating elementwise map (the loop skeleton of the attribute
scan: stop at the first invalid entry). -/
def exMap {α β ε : Type} (f : α → Except ε β) : List α → Except ε (List β)
  | [] => Except.ok []
  | a :: l =>
    match f a with
    | Except.error e => Except.error e
    | Except.ok b =>
      match exMap f l with
      | Except.error e => Except.error e
      | Except.ok bs => Except.ok (b :: bs)

/-- Convert one attribute entry: strip the prefix, render the value. -/
def toAttr (cfg : MxjConfig) (kv : String × GoValue) : Except (String × GoValue) (String × String) :=
  match attrVal cfg kv.2 with
  | some s => Except.ok (String.mk (kv.1.data.drop cfg.attrPre.length), s)
  | none => Except.error kv

/-- The attribute scan of lines 1099–1129: collect every attribute-keyed
entry (prefix stripped) or fail on the first invalid one.  Go visits the
map in unspecified order; the association-list order stands in for it,
and order-independence of the encoded result is proved separately. -/
def scanAttrs (cfg : MxjConfig) (vv : AList) :
    Except (String × GoValue) (List (String × String)) :=
  exMap (toAttr cfg) (vv.filter (fun kv => isAttrKeyB cfg kv.1))

/-- The `<=` comparison of the `sort.Interface` implementations at
lines 1437–1439 and 1451–1453, as a relation on keyed pairs. -/
abbrev keyLeB {β : Type} (a b : String × β) : Prop := strLe a.1 b.1 = true

/-- Sort a pair list by key.  `sort.Sort` leaves the order of equal keys
unspecified; keys here come from a Go map and are distinct, for which any
correct sort yields the same, unique, strictly sorted list (proved below),
so insertion sort stands in for Go's quicksort. -/
def sortByKey {β : Type} (l : List (String × β)) : List (String × β) :=
  List.insertionSort keyLeB l

/-- Strict key order; used to show the sorted list is unique when keys
are distinct. -/
def keyLtB {β : Type} (a b : String × β) : Prop := goStrLt a.1.data b.1.data = true

/-- The sorted attribute text ` k="v" k="v"…` of lines 1130–1138. -/
def attrString (l : List (String × String)) : String :=
  String.join (l.map (fun kv => " " ++ kv.1 ++ "=\"" ++ kv.2 ++ "\""))

/-- The element entries of a map: everything that is neither the text key
nor attribute-keyed (lines 1216–1229). -/
def elemFilter (cfg : MxjConfig) (vv : AList) : AList :=
  vv.filter (fun kv => decide (kv.1 ≠ cfg.textK) && !(isAttrKeyB cfg kv.1))

/-- Render the text-key value (lines 1155–1199): strings and byte slices
are optionally escaped, everything else goes through `%v`. -/
def fmtTextVal (cfg : MxjConfig) (v : GoValue) : String :=
  match v with
  | GoValue.str s => if cfg.xmlEscapeChars then escapeChars s else s
  | GoValue.bytes s => if cfg.xmlEscapeChars then escapeChars s else s
  | v => goFmtValue v

/-- The catch-all coercion of lines 1037–1073: the reflect-driven map
coercion is the identity here (`obj` is already the canonical map type);
`nil` becomes the empty string; a struct is serialized with the external
`encoding/xml.Marshal` (failure aborts with its error); `uint64` — not in
the pass-through list — is stringified via `fmt.Sprint`. -/
def coerceValue : GoValue → Except String GoValue
  | GoValue.nilVal => Except.ok (GoValue.str "")
  | GoValue.structVal res =>
    match res with
    | some s => Except.ok (GoValue.str s)
    | none => Except.error "xml: unsupported type"
  | GoValue.uint64 n => Except.ok (GoValue.str (toString n))
  | v => Except.ok v

mutual

/-- `marshalMapToXmlIndent` (lines 1028–1423).  Returns the text appended
to the buffer, or the error together with the partial text written before
it.  Each level of recursion consumes one unit of fuel. -/
def marshalMapToXmlIndent (cfg : MxjConfig) :
    Nat → Bool → String → GoValue → Pretty → Except (String × String) String
  | 0, _, _, _, _ => Except.error ("fuel exhausted", "")
  | Nat.succ fuel, doIndent, key, value, pp =>
    let p := pp
    match coerceValue value with
    | Except.error e => Except.error (e, "")
    | Except.ok value =>
      let pad := if doIndent then (match value with | GoValue.arr _ => "" | _ => p.padding) else ""
      let openTag := match value with | GoValue.arr _ => "" | _ => "<" ++ key
      let pre := pad ++ openTag
      match value with
      | GoValue.obj vv =>
        match scanAttrs cfg vv with
        | Except.error kv =>
          Except.error
            ("invalid attribute value for: " ++ kv.1 ++ ":<" ++ goTypeName kv.2 ++ ">", pre)
        | Except.ok attrlist =>
          marshalObjRest cfg fuel doIndent key p pre (sortByKey attrlist)
            attrlist.length vv.length (mapGet vv cfg.textK) (sortByKey (elemFilter cfg vv))
      | GoValue.arr l =>
        match l with
        | [] =>
          let pad2 := if doIndent then p.padding ++ p.indent else ""
          let e1 := if doIndent then p.padding else ""
          let closeStr := if cfg.useGoXmlEmptyElem then "></" ++ key ++ ">" else "/>"
          let trail := if doIndent ∧ p.cnt > p.start then "\n" else ""
          Except.ok (pad2 ++ "<" ++ key ++ e1 ++ closeStr ++ trail)
        | _ => marshalArrItems cfg fuel doIndent key p l
      | v =>
        let celen : String × Nat :=
          match v with
          | GoValue.str s =>
            let s' := if cfg.xmlEscapeChars then escapeChars s else s
            ((if s'.length > 0 then ">" ++ s' else ""), s'.length)
          | GoValue.bytes s =>
            let s' := if cfg.xmlEscapeChars then escapeChars s else s
            ((if s'.length > 0 then ">" ++ s' else ""), s'.length)
          | GoValue.boolean b =>
            let s' := if b then "true" else "false"
            (">" ++ s', s'.length)
          | GoValue.int64 i =>
            let s' := toString i
            (">" ++ s', s'.length)
          | GoValue.float f =>
            let s' := goFmtFloat f
            (">" ++ s', s'.length)
          | GoValue.mapSlice _ => (">" ++ ">UNKNOWN", 0)
          | _ => (">", 0)
        let closeStr :=
          if celen.2 > 0 ∨ cfg.useGoXmlEmptyElem then
            (if celen.2 = 0 then ">" else "") ++ "</" ++ key ++ ">"
          else "/>"
        let trail := if doIndent ∧ p.cnt > p.start then "\n" else ""
        Except.ok (pre ++ celen.1 ++ closeStr ++ trail)

/-- Continuation of the `map[string]interface{}` case after the attribute
scan (lines 1130–1256): the sorted attribute text, the attributes-only
self-close, the simple text-with-attributes element, the mixed
text-plus-children element, and the children loop.  All arguments other
than `p` are the data derived from the scanned map. -/
def marshalObjRest (cfg : MxjConfig) :
    Nat → Bool → String → Pretty → String → List (String × String) → Nat → Nat →
    Option GoValue → AList → Except (String × String) String
  | 0, _, _, _, _, _, _, _, _, _ => Except.error ("fuel exhausted", "")
  | Nat.succ fuel, doIndent, key, p, pre, sortedAttrs, nA, lenvv, textVal, elems =>
    let acc := pre ++ attrString sortedAttrs
    if nA = lenvv then
      let closeStr := if cfg.useGoXmlEmptyElem then "</" ++ key ++ ">" else "/>"
      let trail := if doIndent ∧ p.cnt > p.start then "\n" else ""
      Except.ok (acc ++ closeStr ++ trail)
    else
      let simpleCase : Option GoValue :=
        match textVal with
        | some v => if nA + 1 = lenvv then some v else none
        | none => none
      match simpleCase with
      | some v =>
        let trail := if doIndent ∧ p.cnt > p.start then "\n" else ""
        Except.ok (acc ++ ">" ++ fmtTextVal cfg v ++ "</" ++ key ++ ">" ++ trail)
      | none =>
        let acc1 :=
          match textVal with
          | some v => acc ++ ">" ++ fmtTextVal cfg v
          | none => acc ++ ">"
        let acc2 := acc1 ++ (if doIndent then "\n" else "")
        match marshalChildren cfg fuel doIndent p elems with
        | Except.error es => Except.error (es.1, acc2 ++ es.2)
        | Except.ok cs =>
          let e1 := if doIndent then p.padding else ""
          let trail := if doIndent ∧ p.cnt > p.start then "\n" else ""
          Except.ok (acc2 ++ cs ++ e1 ++ "</" ++ key ++ ">" ++ trail)

/-- The element loop of lines 1232–1253: each non-list child is bracketed
by `Indent`/`Outdent` (exact inverses, so the loop state stays `p`);
list children manage their own indentation. -/
def marshalChildren (cfg : MxjConfig) :
    Nat → Bool → Pretty → AList → Except (String × String) String
  | 0, _, _, _ => Except.error ("fuel exhausted", "")
  | Nat.succ _, _, _, [] => Except.ok ""
  | Nat.succ fuel, doIndent, p, kv :: rest =>
    let isArr : Bool := match kv.2 with | GoValue.arr _ => true | _ => false
    let pChild := if !isArr && doIndent then p.indentP else p
    match marshalMapToXmlIndent cfg fuel doIndent kv.1 kv.2 pChild with
    | Except.error es => Except.error es
    | Except.ok s =>
      match marshalChildren cfg fuel doIndent p rest with
      | Except.error es => Except.error (es.1, s ++ es.2)
      | Except.ok s2 => Except.ok (s ++ s2)

/-- The `[]interface{}` loop of lines 1272–1283: one full element
emission per member under the same key, each bracketed by
`Indent`/`Outdent`; the Go case returns without end-tag handling. -/
def marshalArrItems (cfg : MxjConfig) :
    Nat → Bool → String → Pretty → List GoValue → Except (String × String) String
  | 0, _, _, _, _ => Except.error ("fuel exhausted", "")
  | Nat.succ _, _, _, _, [] => Except.ok ""
  | Nat.succ fuel, doIndent, key, p, v :: rest =>
    let pChild := if doIndent then p.indentP else p
    match marshalMapToXmlIndent cfg fuel doIndent key v pChild with
    | Except.error es => Except.error es
    | Except.ok s =>
      match marshalArrItems cfg fuel doIndent key p rest with
      | Except.error es => Except.error (es.1, s ++ es.2)
      | Except.ok s2 => Except.ok (s ++ s2)

end

/-! ### The entry points `Map.Xml` and `Map.XmlIndent` -/

/-- `DefaultRootTag` (line 655). -/
def DefaultRootTag : String := "doc"

/-- The zero `pretty` value `new(pretty)` of `Map.Xml`. -/
def p0 : Pretty := { indent := "", cnt := 0, padding := "", mapDepth := 0, start := 0 }

/-- Is a value a `map[string]interface{}`? (the root-tag scan of
`Map.Xml`, lines 718–728). -/
def isObjV : GoValue → Bool
  | GoValue.obj _ => true
  | _ => false

/-- `Map.Xml` before the validation check (lines 707–735): root-tag
resolution and the marshal call.  Result: the buffer contents and the
error, both of which Go returns. -/
def mapXmlRaw (cfg : MxjConfig) (fuel : Nat) (m : AList) (rootTag : Option String) :
    String × Option String :=
  let res :=
    match m, rootTag with
    | [(key, value)], none =>
      match value with
      | GoValue.arr l =>
        if l.all isObjV then
          marshalMapToXmlIndent cfg fuel false key (GoValue.arr l) p0
        else
          marshalMapToXmlIndent cfg fuel false DefaultRootTag
            (GoValue.obj [(key, GoValue.arr l)]) p0
      | _ => marshalMapToXmlIndent cfg fuel false key value p0
    | _, some rt => marshalMapToXmlIndent cfg fuel false rt (GoValue.obj m) p0
    | _, none => marshalMapToXmlIndent cfg fuel false DefaultRootTag (GoValue.obj m) p0
  match res with
  | Except.ok s => (s, none)
  | Except.error es => (es.2, some es.1)

/-- The post-encode validation loop shared by `Map.Xml` (lines 736–749)
and `Map.XmlIndent` (lines 990–1001): re-tokenize the buffer with the
external tokenizer (`validate`, `none` = every token parsed, `some e` =
first tokenizer error).  Note the loop's `_, err = d.Token()` overwrites
the marshal error. -/
def checkWrap (cfg : MxjConfig) (validate : String → Option String)
    (raw : String × Option String) : Option String × Option String :=
  if cfg.xmlCheckIsValid then
    match validate raw.1 with
    | some te => (none, some te)
    | none => (some raw.1, none)
  else (some raw.1, raw.2)

/-- `Map.Xml` (lines 707–750). -/
def mapXml (cfg : MxjConfig) (fuel : Nat) (validate : String → Option String)
    (m : AList) (rootTag : Option String) : Option String × Option String :=
  checkWrap cfg validate (mapXmlRaw cfg fuel m rootTag)

/-- `Map.XmlIndent` before the validation check (lines 966–989): note the
root-tag rule here forces the default root for *any* `[]interface{}`
value, unlike `Map.Xml`. -/
def mapXmlIndentRaw (cfg : MxjConfig) (fuel : Nat) (pre indent : String)
    (m : AList) (rootTag : Option String) : String × Option String :=
  let pp : Pretty := { indent := indent, cnt := 0, padding := pre, mapDepth := 0, start := 0 }
  let res :=
    match m, rootTag with
    | [(key, value)], none =>
      match value with
      | GoValue.arr l =>
        marshalMapToXmlIndent cfg fuel true DefaultRootTag
          (GoValue.obj [(key, GoValue.arr l)]) pp
      | _ => marshalMapToXmlIndent cfg fuel true key value pp
    | _, some rt => marshalMapToXmlIndent cfg fuel true rt (GoValue.obj m) pp
    | _, none => marshalMapToXmlIndent cfg fuel true DefaultRootTag (GoValue.obj m) pp
  match res with
  | Except.ok s => (s, none)
  | Except.error es => (es.2, some es.1)

/-- `Map.XmlIndent` (lines 966–1003). -/
def mapXmlIndent (cfg : MxjConfig) (fuel : Nat) (validate : String → Option String)
    (pre indent : String) (m : AList) (rootTag : Option String) :
    Option String × Option String :=
  checkWrap cfg validate (mapXmlIndentRaw cfg fuel pre indent m rootTag)

/-! ### A model of the external tokenizer for the validation loop -/

/-- Leading characters satisfying `p`, with the rest. -/
def spanP (p : Char → Bool) : List Char → List Char × List Char
  | [] => ([], [])
  | c :: rest =>
    if p c then
      let (d, r) := spanP p rest
      (c :: d, r)
    else ([], c :: rest)

/-- Characters Go's tokenizer accepts in a name (simplified). -/
def nameChar (c : Char) : Bool :=
  c.isAlphanum || c == '_' || c == ':' || c == '-' || c == '.'

/-- Drop leading whitespace. -/
def skipSpaces (cs : List Char) : List Char :=
  cs.dropWhile (fun c => c == ' ' || c == '\t' || c == '\n' || c == '\r')

/-- Scan one tag's attribute list up to `>` or `/>`; `none` = syntax
error.  Returns whether the tag was self-closing and the rest. -/
def scanTagAttrs : Nat → List Char → Option (Bool × List Char)
  | 0, _ => none
  | Nat.succ f, cs =>
    match skipSpaces cs with
    | '>' :: r => some (false, r)
    | '/' :: '>' :: r => some (true, r)
    | cs1 =>
      let (nm, r1) := spanP nameChar cs1
      if nm.isEmpty then none
      else
        match skipSpaces r1 with
        | '=' :: r2 =>
          match skipSpaces r2 with
          | '"' :: r3 =>
            let (_, r4) := spanP (fun c => c != '"') r3
            match r4 with
            | '"' :: r5 => scanTagAttrs f r5
            | _ => none
          | _ => none
        | _ => none

/-- The token loop of the validation check, over raw characters with a
stack of open elements. -/
def validateLoop : Nat → List Char → List String → Option String
  | 0, _, _ => some "validator fuel exhausted"
  | Nat.succ f, cs, stack =>
    match cs with
    | [] => if stack.isEmpty then none else some "XML syntax error: unexpected EOF"
    | '<' :: '/' :: r =>
      let (nm, r1) := spanP nameChar r
      match r1 with
      | '>' :: r2 =>
        match stack with
        | top :: stack' =>
          if top = String.mk nm then validateLoop f r2 stack'
          else some "XML syntax error: unexpected end element"
        | [] => some "XML syntax error: unexpected end element"
      | _ => some "XML syntax error: invalid end tag"
    | '<' :: r =>
      let (nm, r1) := spanP nameChar r
      if nm.isEmpty then some "XML syntax error: invalid start tag"
      else
        match scanTagAttrs (r1.length + 1) r1 with
        | some (selfC, r2) =>
          if selfC then validateLoop f r2 stack
          else validateLoop f r2 (String.mk nm :: stack)
        | none => some "XML syntax error: invalid tag"
    | _ :: r => validateLoop f r stack

/-- Modelled from the external `encoding/xml` tokenizer as driven by the
validation loops: scan the bytes, requiring well-nested tags and properly
quoted attributes (character-entity validation is not modelled).  On
empty input the first `Token()` call yields a clean `io.EOF`, i.e. the
check passes. -/
def goTokenizeValidate (s : String) : Option String :=
  validateLoop (s.data.length + 1) s.data []

/-- A validator stub for calls with the check disabled (never consulted). -/
def noValidate : String → Option String := fun _ => none

/-! ### The bulk stream loop `HandleXmlReader` (lines 823–853) -/

/-- The error tag `fmt.Errorf("[xmlReader: %d] %s", n, merr.Error())`. -/
def tagHandlerError (n : Nat) (msg : String) : String :=
  "[xmlReader: " ++ toString n ++ "] " ++ msg

/-- `HandleXmlReader`: repeatedly decode one document off the shared
stream; a non-EOF decode error is tagged with the count of read attempts
and offered to `errHandler` (a rejected error ends the loop and is
returned); `io.EOF` ends the loop cleanly.  A tokenizer error is sticky
in Go's decoder, modelled by continuing on `[Tok.errTok raw]`.  The
`Except.error ()` outcome is the fuel artifact (Go would spin or panic). -/
def handleXmlReader (cfg : MxjConfig) (pf : Nat) (mh : AList → Bool) (eh : String → Bool) :
    Nat → List Tok → Nat → Except Unit (Option String)
  | 0, _, _ => Except.error ()
  | Nat.succ fuel, toks, n =>
    let n' := n + 1
    match xmlToMapParser cfg false pf "" [] toks with
    | Except.ok (m, rest) =>
      if m.length ≠ 0 then
        if mh m then handleXmlReader cfg pf mh eh fuel rest n' else Except.ok none
      else handleXmlReader cfg pf mh eh fuel rest n'
    | Except.error PErr.eofErr => Except.ok none
    | Except.error (PErr.tokenErr raw) =>
      let merr := tagHandlerError n' (peMessage (PErr.tokenErr raw))
      if eh merr then handleXmlReader cfg pf mh eh fuel [Tok.errTok raw] n'
      else Except.ok (some merr)
    | Except.error _ => Except.error ()

/-- Unpack a marshal result the way `Map.Xml`/`Map.XmlIndent` return it:
the buffer contents plus the error. -/
def unpackRes (res : Except (String × String) String) : String × Option String :=
  match res with
  | Except.ok s => (s, none)
  | Except.error es => (es.2, some es.1)

/-- Is a value a `[]interface{}`? (the root-tag type assertions of
`Map.Xml` and `Map.XmlIndent`). -/
def isArrV : GoValue → Bool
  | GoValue.arr _ => true
  | _ => false

/-! ## Theorems

General lemmas about the embedded functions, followed by one theorem per
claim (with witnesses and counterexamples where required). -/

@[simp] theorem dc_lowerCase : dc.lowerCase = false := rfl

@[simp] theorem dc_snakeCaseKeys : dc.snakeCaseKeys = false := rfl

@[simp] theorem dc_attrPre : dc.attrPre = "-" := rfl

@[simp] theorem dc_includeTagSeqNum : dc.includeTagSeqNum = false := rfl

@[simp] theorem dc_handleXMPPStreamTag : dc.handleXMPPStreamTag = false := rfl

@[simp] theorem dc_decodeSimpleValuesAsMap : dc.decodeSimpleValuesAsMap = false := rfl

@[simp] theorem dc_castNanInf : dc.castNanInf = false := rfl

@[simp] theorem dc_castToInt : dc.castToInt = false := rfl

@[simp] theorem dc_castToFloat : dc.castToFloat = true := rfl

@[simp] theorem dc_castToBool : dc.castToBool = true := rfl

@[simp] theorem dc_checkTagToSkip : dc.checkTagToSkip = none := rfl

@[simp] theorem dc_xmlEscapeChars : dc.xmlEscapeChars = false := rfl

@[simp] theorem dc_xmlEscapeCharsDecoder : dc.xmlEscapeCharsDecoder = false := rfl

@[simp] theorem dc_useGoXmlEmptyElem : dc.useGoXmlEmptyElem = false := rfl

@[simp] theorem dc_xmlCheckIsValid : dc.xmlCheckIsValid = false := rfl

@[simp] theorem dc_textK : dc.textK = "$" := rfl

theorem mapGet_mapSet_self (m : AList) (k : String) (v : GoValue) :
    mapGet (mapSet m k v) k = some v := by
  induction m with
  | nil => simp [mapSet, mapGet]
  | cons kv rest ih =>
    obtain ⟨k', v'⟩ := kv
    by_cases h : k' = k
    · simp [mapSet, mapGet, h]
    · simp [mapSet, mapGet, h, ih]

theorem addChild_fresh (na : AList) (key : String) (val : GoValue)
    (h : mapGet na key = none) : addChild na key val = mapSet na key val := by
  simp [addChild, h]

theorem addChild_second (na : AList) (key : String) (v val : GoValue)
    (h : mapGet na key = some v) (hv : ∀ l, v ≠ GoValue.arr l) :
    mapGet (addChild na key val) key = some (GoValue.arr [v, val]) := by
  unfold addChild
  rw [h]
  cases v with
  | arr l => exact absurd rfl (hv l)
  | _ => simp [mapGet_mapSet_self]

theorem addChild_again (na : AList) (key : String) (l : List GoValue) (val : GoValue)
    (h : mapGet na key = some (GoValue.arr l)) :
    mapGet (addChild na key val) key = some (GoValue.arr (l ++ [val])) := by
  unfold addChild
  rw [h]
  simp [mapGet_mapSet_self]

theorem mapSet_shape (n : AList) (k : String) (v : GoValue)
    (hn : n = [] ∨ ∃ w, n = [(k, w)]) :
    mapSet n k v = [] ∨ ∃ w, mapSet n k v = [(k, w)] := by
  rcases hn with hn | ⟨w, hn⟩ <;> subst hn
  · right; exact ⟨v, rfl⟩
  · right; exact ⟨v, by simp [mapSet]⟩

theorem okPair_inj {ps qs : AList × List Tok}
    (h : (Except.ok ps : Except PErr (AList × List Tok)) = Except.ok qs) : ps = qs := by
  cases h
  rfl

theorem parseLoop_shape (cfg : MxjConfig) (r : Bool) :
    ∀ (fuel : Nat) (k : String) (n na : AList) (seq : Nat) (toks : List Tok)
      (m : AList) (rest : List Tok),
      parseLoop cfg r fuel k n na seq toks = Except.ok (m, rest) →
      (n = [] ∨ ∃ w, n = [(k, w)]) →
      ∃ kk v, m = [(kk, v)] ∧ (k ≠ "" → kk = k) := by
  intro fuel
  induction fuel with
  | zero =>
    intro k n na seq toks m rest h hn
    simp [parseLoop] at h
  | succ fuel ih =>
    intro k n na seq toks m rest h hn
    match toks with
    | [] => simp [parseLoop] at h
    | Tok.errTok msg :: rest' => simp [parseLoop] at h
    | Tok.misc :: rest' =>
      exact ih k n na seq rest' m rest (by simpa [parseLoop] using h) hn
    | Tok.chardata s :: rest' =>
      simp only [parseLoop] at h
      repeat' split at h
      all_goals
        first
        | simp at h
        | exact ih k n _ seq rest' m rest h hn
        | exact ih k _ na seq rest' m rest h (mapSet_shape n k _ hn)
    | Tok.endEl :: rest' =>
      simp only [parseLoop] at h
      split at h
      · simp at h
      · rename_i hk
        split at h
        · rename_i hlen
          split at h
          · have h1 : [(k, GoValue.obj na)] = m := congrArg Prod.fst (okPair_inj h)
            exact ⟨k, GoValue.obj na, h1.symm, fun _ => rfl⟩
          · have h1 : [(k, GoValue.str "")] = m := congrArg Prod.fst (okPair_inj h)
            exact ⟨k, GoValue.str "", h1.symm, fun _ => rfl⟩
        · rename_i hlen
          split at h
          · have h1 := congrArg Prod.fst (okPair_inj h)
            exact ⟨k, _, h1.symm, fun _ => rfl⟩
          · have h1 : n = m := congrArg Prod.fst (okPair_inj h)
            rcases hn with hn | ⟨w, hn⟩
            · exact absurd (by simp [hn]) hlen
            · exact ⟨k, w, by rw [← h1, hn], fun _ => rfl⟩
    | Tok.start name attrs :: rest' =>
      simp only [parseLoop] at h
      rcases hI : initFrame cfg r name attrs with ⟨ck, cna⟩
      rw [hI] at h
      by_cases hk : k = ""
      · rw [if_pos hk] at h
        split at h
        · have h1 : [(ck, GoValue.obj cna)] = m := congrArg Prod.fst (okPair_inj h)
          exact ⟨ck, GoValue.obj cna, h1.symm, fun hkk => absurd hk hkk⟩
        · obtain ⟨kk, v, hm, _⟩ := ih ck [] cna 0 rest' m rest h (Or.inl rfl)
          exact ⟨kk, v, hm, fun hkk => absurd hk hkk⟩
      · rw [if_neg hk] at h
        split at h
        · simp at h
        · rename_i nn rest'' heq
          exact ih k n _ _ rest'' m rest h hn

theorem normTag_empty (cfg : MxjConfig) : normTag cfg "" = "" := by
  cases h1 : cfg.lowerCase <;> cases h2 : cfg.snakeCaseKeys <;>
    simp [normTag, strToLower, snakeCase, h1, h2]

theorem initFrame_fst (cfg : MxjConfig) (r : Bool) (skey : String)
    (a : List (String × String)) : (initFrame cfg r skey a).1 = normTag cfg skey := rfl

theorem decode_singleton_frame : ∀ (cfg : MxjConfig) (r : Bool) (fuel : Nat)
    (skey : String) (a : List (String × String)) (toks : List Tok)
    (m : AList) (rest : List Tok),
    normTag cfg skey ≠ "" →
    xmlToMapParser cfg r fuel skey a toks = Except.ok (m, rest) →
    ∃ v, m = [(normTag cfg skey, v)] := by
  intro cfg r fuel skey a toks m rest hk h
  simp only [xmlToMapParser] at h
  rcases hI : initFrame cfg r skey a with ⟨ck, cna⟩
  have hck : ck = normTag cfg skey := by
    have h2 : (initFrame cfg r skey a).1 = ck := by rw [hI]
    rw [initFrame_fst] at h2; exact h2.symm
  rw [hI] at h
  split at h
  · have h' : ([(ck, GoValue.obj cna)], toks) = (m, rest) := by
      cases h; rfl
    have h1 : [(ck, GoValue.obj cna)] = m := congrArg Prod.fst h'
    exact ⟨GoValue.obj cna, by rw [← h1, hck]⟩
  · obtain ⟨kk, v, hm, himp⟩ :=
      parseLoop_shape cfg r fuel ck [] cna 0 toks m rest h (Or.inl rfl)
    refine ⟨v, ?_⟩
    rw [hm, himp (by rw [hck]; exact hk), hck]

theorem decode_singleton_top : ∀ (cfg : MxjConfig) (r : Bool) (fuel : Nat)
    (toks : List Tok) (m : AList) (rest : List Tok),
    xmlToMapParser cfg r fuel "" [] toks = Except.ok (m, rest) →
    ∃ kk v, m = [(kk, v)] := by
  intro cfg r fuel toks m rest h
  simp only [xmlToMapParser] at h
  rcases hI : initFrame cfg r "" [] with ⟨ck, cna⟩
  have hck : ck = "" := by
    have h2 : (initFrame cfg r "" []).1 = ck := by rw [hI]
    rw [initFrame_fst, normTag_empty] at h2; exact h2.symm
  rw [hI] at h
  split at h
  · rename_i hx
    rw [hck] at hx
    simp at hx
  · obtain ⟨kk, v, hm, _⟩ :=
      parseLoop_shape cfg r fuel ck [] cna 0 toks m rest h (Or.inl rfl)
    exact ⟨kk, v, hm⟩

theorem decode_simple_element : ∀ (name s : String) (r : Bool) (f : Nat), name ≠ "" →
    trimChars s dc.trimRunes = s → 0 < s.length →
    xmlToMapParser dc r (f + 3) "" [] [Tok.start name [], Tok.chardata s, Tok.endEl] =
      Except.ok ([(name, cast dc s r name)], []) := by
  intro name s r f hname htrim hlen
  have hb : xmlToMapParser dc r (f + 3) "" []
      [Tok.start name [], Tok.chardata s, Tok.endEl] =
      parseLoop dc r (f + 3) "" [] [] 0
        [Tok.start name [], Tok.chardata s, Tok.endEl] := rfl
  rw [hb]
  simp [parseLoop, initFrame, normTag, loadAttrs, htrim, hname, hlen, mapSet]

theorem decode_err_token : ∀ (r : Bool) (f : Nat) (skey : String)
    (a : List (String × String)) (toks : List Tok) (msg : String),
    xmlToMapParser dc r (f + 1) skey a (Tok.errTok msg :: toks) =
      Except.error (PErr.tokenErr msg) := by
  intro r f skey a toks msg
  rfl

theorem decode_eof : ∀ (r : Bool) (f : Nat) (skey : String)
    (a : List (String × String)),
    xmlToMapParser dc r (f + 1) skey a [] = Except.error PErr.eofErr := by
  intro r f skey a
  rfl

theorem cast_float_wins : ∀ (s t : String) (f : GoFloat),
    strToLower s ≠ "nan" → strToLower s ≠ "inf" → strToLower s ≠ "-inf" →
    goParseFloat s = some f →
    cast dc s true t = GoValue.float f := by
  intro s t f h1 h2 h3 hf
  simp [cast, dc, hf, h1, h2, h3]

theorem cast_bool_after_float : ∀ (s t : String) (b : Bool),
    strToLower s ≠ "nan" → strToLower s ≠ "inf" → strToLower s ≠ "-inf" →
    goParseFloat s = none → 0 < s.length → s.length < 6 →
    (s.take 1 = "t" ∨ s.take 1 = "T" ∨ s.take 1 = "f" ∨ s.take 1 = "F") →
    goParseBool s = some b →
    cast dc s true t = GoValue.boolean b := by
  intro s t b h1 h2 h3 hf hl1 hl2 hc hp
  simp [cast, hf, h1, h2, h3, hl1, hl2, hp]
  rcases hc with h | h | h | h <;> simp [h]

theorem cast_fallback_string : ∀ (s t : String),
    strToLower s ≠ "nan" → strToLower s ≠ "inf" → strToLower s ≠ "-inf" →
    goParseFloat s = none → goParseBool s = none →
    cast dc s true t = GoValue.str s := by
  intro s t h1 h2 h3 hf hb
  simp [cast, hf, hb, h1, h2, h3]

theorem cast_int_first : ∀ (s t : String) (i : Int),
    strToLower s ≠ "nan" → strToLower s ≠ "inf" → strToLower s ≠ "-inf" →
    goParseInt s = some i →
    cast { dc with castToInt := true } s true t = GoValue.int64 i := by
  intro s t i h1 h2 h3 hi
  simp [cast, hi, h1, h2, h3]

theorem mapXmlRaw_root_single : ∀ (cfg : MxjConfig) (fuel : Nat) (key : String)
    (v : GoValue), isArrV v = false →
    mapXmlRaw cfg fuel [(key, v)] none =
      unpackRes (marshalMapToXmlIndent cfg fuel false key v p0) := by
  intro cfg fuel key v hv
  cases v <;> simp_all [mapXmlRaw, unpackRes, isArrV]

theorem mapXmlRaw_root_list_objs : ∀ (cfg : MxjConfig) (fuel : Nat) (key : String)
    (l : List GoValue), l.all isObjV = true →
    mapXmlRaw cfg fuel [(key, GoValue.arr l)] none =
      unpackRes (marshalMapToXmlIndent cfg fuel false key (GoValue.arr l) p0) := by
  intro cfg fuel key l hl
  simp [mapXmlRaw, unpackRes, hl]

theorem mapXmlRaw_root_list_mixed : ∀ (cfg : MxjConfig) (fuel : Nat) (key : String)
    (l : List GoValue), l.all isObjV = false →
    mapXmlRaw cfg fuel [(key, GoValue.arr l)] none =
      unpackRes (marshalMapToXmlIndent cfg fuel false DefaultRootTag
        (GoValue.obj [(key, GoValue.arr l)]) p0) := by
  intro cfg fuel key l hl
  simp [mapXmlRaw, unpackRes, hl]

theorem mapXmlRaw_root_explicit : ∀ (cfg : MxjConfig) (fuel : Nat) (m : AList)
    (rt : String),
    mapXmlRaw cfg fuel m (some rt) =
      unpackRes (marshalMapToXmlIndent cfg fuel false rt (GoValue.obj m) p0) := by
  intro cfg fuel m rt
  match m with
  | [] => simp [mapXmlRaw, unpackRes]
  | [(k, v)] => simp [mapXmlRaw, unpackRes]
  | (k1, v1) :: (k2, v2) :: rest => simp [mapXmlRaw, unpackRes]

theorem mapXmlRaw_root_multi : ∀ (cfg : MxjConfig) (fuel : Nat) (m : AList),
    m.length ≠ 1 →
    mapXmlRaw cfg fuel m none =
      unpackRes (marshalMapToXmlIndent cfg fuel false DefaultRootTag
        (GoValue.obj m) p0) := by
  intro cfg fuel m hm
  match m with
  | [] => simp [mapXmlRaw, unpackRes]
  | [(k, v)] => simp at hm
  | (k1, v1) :: (k2, v2) :: rest => simp [mapXmlRaw, unpackRes]

theorem mapXmlIndentRaw_root_list : ∀ (cfg : MxjConfig) (fuel : Nat)
    (pre ind key : String) (l : List GoValue),
    mapXmlIndentRaw cfg fuel pre ind [(key, GoValue.arr l)] none =
      unpackRes (marshalMapToXmlIndent cfg fuel true DefaultRootTag
        (GoValue.obj [(key, GoValue.arr l)])
        { indent := ind, cnt := 0, padding := pre, mapDepth := 0, start := 0 }) := by
  intro cfg fuel pre ind key l
  simp [mapXmlIndentRaw, unpackRes]

theorem mapXmlIndentRaw_root_single : ∀ (cfg : MxjConfig) (fuel : Nat)
    (pre ind key : String) (v : GoValue), isArrV v = false →
    mapXmlIndentRaw cfg fuel pre ind [(key, v)] none =
      unpackRes (marshalMapToXmlIndent cfg fuel true key v
        { indent := ind, cnt := 0, padding := pre, mapDepth := 0, start := 0 }) := by
  intro cfg fuel pre ind key v hv
  cases v <;> simp_all [mapXmlIndentRaw, unpackRes, isArrV]

theorem xml_check_fail : ∀ (cfg : MxjConfig) (validate : String → Option String)
    (fuel : Nat) (m : AList) (rt : Option String) (te : String),
    cfg.xmlCheckIsValid = true →
    validate (mapXmlRaw cfg fuel m rt).1 = some te →
    mapXml cfg fuel validate m rt = (none, some te) := by
  intro cfg validate fuel m rt te hchk hv
  simp [mapXml, checkWrap, hchk, hv]

theorem xml_check_pass : ∀ (cfg : MxjConfig) (validate : String → Option String)
    (fuel : Nat) (m : AList) (rt : Option String),
    cfg.xmlCheckIsValid = true →
    validate (mapXmlRaw cfg fuel m rt).1 = none →
    mapXml cfg fuel validate m rt = (some (mapXmlRaw cfg fuel m rt).1, none) := by
  intro cfg validate fuel m rt hchk hv
  simp [mapXml, checkWrap, hchk, hv]

theorem xmlIndent_check_fail : ∀ (cfg : MxjConfig) (validate : String → Option String)
    (fuel : Nat) (pre ind : String) (m : AList) (rt : Option String) (te : String),
    cfg.xmlCheckIsValid = true →
    validate (mapXmlIndentRaw cfg fuel pre ind m rt).1 = some te →
    mapXmlIndent cfg fuel validate pre ind m rt = (none, some te) := by
  intro cfg validate fuel pre ind m rt te hchk hv
  simp [mapXmlIndent, checkWrap, hchk, hv]

theorem goStrLt_irrefl : ∀ a, goStrLt a a = false := by
  intro a
  induction a with
  | nil => rfl
  | cons c cs ih => simp [goStrLt, ih]

theorem goStrLt_asymm : ∀ a b, goStrLt a b = true → goStrLt b a = false := by
  intro a
  induction a with
  | nil =>
    intro b h
    cases b with
    | nil => simp [goStrLt] at h
    | cons y ys => simp [goStrLt]
  | cons c cs ih =>
    intro b h
    cases b with
    | nil => simp [goStrLt] at h
    | cons y ys =>
      rw [goStrLt] at h ⊢
      rcases lt_trichotomy c y with hc | hc | hc
      · rw [if_neg (not_lt_of_gt hc), if_pos hc]
      · subst hc
        rw [if_neg (lt_irrefl c), if_neg (lt_irrefl c)] at h ⊢
        exact ih ys h
      · rw [if_neg (not_lt_of_gt hc), if_pos hc] at h
        exact absurd h (by simp)

theorem goStrLt_conn : ∀ a b, goStrLt a b = false → goStrLt b a = false → a = b := by
  intro a
  induction a with
  | nil =>
    intro b h1 h2
    cases b with
    | nil => rfl
    | cons y ys => simp [goStrLt] at h1
  | cons c cs ih =>
    intro b h1 h2
    cases b with
    | nil => simp [goStrLt] at h2
    | cons y ys =>
      rw [goStrLt] at h1 h2
      rcases lt_trichotomy c y with hc | hc | hc
      · rw [if_pos hc] at h1
        exact absurd h1 (by simp)
      · subst hc
        rw [if_neg (lt_irrefl c), if_neg (lt_irrefl c)] at h1 h2
        rw [ih ys h1 h2]
      · rw [if_pos hc] at h2
        exact absurd h2 (by simp)

theorem goStrLt_trans : ∀ a b c, goStrLt a b = true → goStrLt b c = true →
    goStrLt a c = true := by
  intro a
  induction a with
  | nil =>
    intro b c h1 h2
    cases b with
    | nil => simp [goStrLt] at h1
    | cons y ys =>
      cases c with
      | nil => simp [goStrLt] at h2
      | cons z zs => simp [goStrLt]
  | cons x xs ih =>
    intro b c h1 h2
    cases b with
    | nil => simp [goStrLt] at h1
    | cons y ys =>
      cases c with
      | nil => simp [goStrLt] at h2
      | cons z zs =>
        rw [goStrLt] at h1 h2 ⊢
        rcases lt_trichotomy x y with hxy | hxy | hxy
        · rcases lt_trichotomy y z with hyz | hyz | hyz
          · rw [if_pos (lt_trans hxy hyz)]
          · subst hyz
            rw [if_pos hxy]
          · rw [if_neg (not_lt_of_gt hyz), if_pos hyz] at h2
            exact absurd h2 (by simp)
        · subst hxy
          rw [if_neg (lt_irrefl x), if_neg (lt_irrefl x)] at h1
          rcases lt_trichotomy x z with hxz | hxz | hxz
          · rw [if_pos hxz]
          · subst hxz
            rw [if_neg (lt_irrefl x), if_neg (lt_irrefl x)] at h2 ⊢
            exact ih ys zs h1 h2
          · rw [if_neg (not_lt_of_gt hxz), if_pos hxz] at h2
            exact absurd h2 (by simp)
        · rw [if_neg (not_lt_of_gt hxy), if_pos hxy] at h1
          exact absurd h1 (by simp)

theorem strings_ext (a b : String) (h : a.data = b.data) : a = b := by
  cases a; cases b; exact congrArg String.mk h

instance keyLeB_total {β : Type} : IsTotal (String × β) keyLeB where
  total := by
    intro a b
    unfold keyLeB strLe
    by_cases h : goStrLt b.1.data a.1.data = true
    · right
      simp [goStrLt_asymm _ _ h]
    · left
      simp [Bool.not_eq_true] at h
      simp [h]

instance keyLeB_trans {β : Type} : IsTrans (String × β) keyLeB where
  trans := by
    intro a b c hab hbc
    unfold keyLeB strLe at hab hbc ⊢
    simp only [Bool.not_eq_true', Bool.not_eq_true] at hab hbc ⊢
    rcases hlt : goStrLt c.1.data a.1.data with _ | _
    · rfl
    · exfalso
      rcases hab' : goStrLt a.1.data b.1.data with _ | _
      · rcases hbc' : goStrLt b.1.data c.1.data with _ | _
        · have h1 := goStrLt_conn _ _ hab' hab
          have h2 := goStrLt_conn _ _ hbc' hbc
          rw [h1, h2] at hlt
          rw [goStrLt_irrefl] at hlt
          exact Bool.false_ne_true hlt
        · have h1 := goStrLt_conn _ _ hab' hab
          rw [h1] at hlt
          rw [goStrLt_asymm _ _ hbc'] at hlt
          exact Bool.false_ne_true hlt
      · rcases hbc' : goStrLt b.1.data c.1.data with _ | _
        · have h2 := goStrLt_conn _ _ hbc' hbc
          rw [← h2] at hlt
          rw [goStrLt_asymm _ _ hab'] at hlt
          exact Bool.false_ne_true hlt
        · have h3 := goStrLt_trans _ _ _ hab' hbc'
          rw [goStrLt_asymm _ _ h3] at hlt
          exact Bool.false_ne_true hlt

instance keyLtB_antisymm {β : Type} : IsAntisymm (String × β) keyLtB where
  antisymm := by
    intro a b hab hba
    unfold keyLtB at hab hba
    rw [goStrLt_asymm _ _ hab] at hba
    exact absurd hba (by simp)

theorem sortByKey_perm {β : Type} (l : List (String × β)) :
    List.Perm (sortByKey l) l :=
  List.perm_insertionSort _ l

theorem sortByKey_sorted {β : Type} (l : List (String × β)) :
    List.Sorted keyLeB (sortByKey l) :=
  List.sorted_insertionSort _ l

theorem pairwise_keyLt_of_sorted_nodup {β : Type} (l : List (String × β))
    (hs : List.Sorted keyLeB l) (hn : (l.map Prod.fst).Nodup) :
    List.Pairwise keyLtB l := by
  rw [List.Nodup, List.pairwise_map] at hn
  refine List.Pairwise.imp₂ (fun a b hle hne => ?_) hs hn
  unfold keyLeB strLe at hle
  simp only [Bool.not_eq_true'] at hle
  unfold keyLtB
  rcases hlt : goStrLt a.1.data b.1.data with _ | _
  · exfalso
    exact hne (strings_ext _ _ (goStrLt_conn _ _ hlt hle))
  · rfl

theorem sortByKey_eq_of_perm {β : Type} (l₁ l₂ : List (String × β))
    (hp : List.Perm l₁ l₂) (hn : (l₁.map Prod.fst).Nodup) :
    sortByKey l₁ = sortByKey l₂ := by
  have hn₂ : (l₂.map Prod.fst).Nodup := ((hp.map Prod.fst).nodup_iff).mp hn
  have hp' : List.Perm (sortByKey l₁) (sortByKey l₂) :=
    (sortByKey_perm l₁).trans (hp.trans (sortByKey_perm l₂).symm)
  have hs₁ : List.Pairwise keyLtB (sortByKey l₁) :=
    pairwise_keyLt_of_sorted_nodup _ (sortByKey_sorted l₁)
      (((sortByKey_perm l₁).map Prod.fst).nodup_iff.mpr hn)
  have hs₂ : List.Pairwise keyLtB (sortByKey l₂) :=
    pairwise_keyLt_of_sorted_nodup _ (sortByKey_sorted l₂)
      (((sortByKey_perm l₂).map Prod.fst).nodup_iff.mpr hn₂)
  exact List.eq_of_perm_of_sorted hp' hs₁ hs₂

theorem exMap_ok_perm {α β ε : Type} (f : α → Except ε β) :
    ∀ (l₁ l₂ : List α), List.Perm l₁ l₂ → ∀ r₁, exMap f l₁ = Except.ok r₁ →
    ∃ r₂, exMap f l₂ = Except.ok r₂ ∧ List.Perm r₁ r₂ := by
  intro l₁ l₂ hp
  induction hp with
  | nil =>
    intro r₁ h
    exact ⟨r₁, h, List.Perm.refl _⟩
  | cons a hp ih =>
    rename_i la lb
    intro r₁ h
    simp only [exMap] at h ⊢
    rcases hfa : f a with e | b
    · rw [hfa] at h
      simp at h
    · rw [hfa] at h
      rcases hrest : exMap f la with e | bs
      · rw [hrest] at h
        simp at h
      · rw [hrest] at h
        obtain ⟨r₂, hr₂, hperm⟩ := ih bs hrest
        rw [hr₂]
        have h' : b :: bs = r₁ := by simpa using h
        exact ⟨b :: r₂, rfl, h' ▸ List.Perm.cons b hperm⟩
  | swap a b l =>
    intro r₁ h
    simp only [exMap] at h ⊢
    rcases hfb : f b with e | vb
    · rw [hfb] at h
      simp at h
    · rw [hfb] at h
      rcases hfa : f a with e | va
      · rw [hfa] at h
        simp at h
      · rw [hfa] at h
        rcases hrest : exMap f l with e | vs
        · rw [hrest] at h
          simp at h
        · rw [hrest] at h
          have h' : vb :: va :: vs = r₁ := by simpa using h
          refine ⟨va :: vb :: vs, rfl, ?_⟩
          rw [← h']
          exact List.Perm.swap va vb vs
  | trans hp₁ hp₂ ih₁ ih₂ =>
    intro r₁ h
    obtain ⟨r₂, h₂, hperm₂⟩ := ih₁ r₁ h
    obtain ⟨r₃, h₃, hperm₃⟩ := ih₂ r₂ h₂
    exact ⟨r₃, h₃, hperm₂.trans hperm₃⟩

theorem exMap_mem_source {α β ε : Type} (f : α → Except ε β) :
    ∀ (l : List α) (r : List β), exMap f l = Except.ok r →
    ∀ y ∈ r, ∃ x ∈ l, f x = Except.ok y := by
  intro l
  induction l with
  | nil =>
    intro r h y hy
    simp [exMap] at h
    subst h
    simp at hy
  | cons a l' ih =>
    intro r h y hy
    simp only [exMap] at h
    rcases hfa : f a with e | b
    · rw [hfa] at h
      simp at h
    · rw [hfa] at h
      rcases hrest : exMap f l' with e | bs
      · rw [hrest] at h
        simp at h
      · rw [hrest] at h
        have h' : b :: bs = r := by simpa using h
        rw [← h'] at hy
        rcases List.mem_cons.mp hy with hy | hy
        · exact ⟨a, List.mem_cons_self a l', hy ▸ hfa⟩
        · obtain ⟨x, hx, hfx⟩ := ih bs hrest y hy
          exact ⟨x, List.mem_cons_of_mem a hx, hfx⟩

theorem exMap_error_of_bad {α β ε : Type} (f : α → Except ε β) :
    ∀ (l : List α) (x : α), x ∈ l → (∀ y, f x ≠ Except.ok y) →
    ∃ e, exMap f l = Except.error e := by
  intro l
  induction l with
  | nil =>
    intro x hx
    simp at hx
  | cons a l' ih =>
    intro x hx hbad
    rcases List.mem_cons.mp hx with hx | hx
    · subst hx
      rcases hfa : f x with e | y
      · exact ⟨e, by simp [exMap, hfa]⟩
      · exact absurd hfa (hbad y)
    · rcases hfa : f a with e | y
      · exact ⟨e, by simp [exMap, hfa]⟩
      · obtain ⟨e, he⟩ := ih x hx hbad
        exact ⟨e, by simp [exMap, hfa, he]⟩

theorem mapGet_eq_none_iff (m : AList) (k : String) :
    mapGet m k = none ↔ k ∉ m.map Prod.fst := by
  induction m with
  | nil => simp [mapGet]
  | cons kv rest ih =>
    obtain ⟨k', v'⟩ := kv
    by_cases h : k' = k
    · subst h
      simp [mapGet]
    · simp [mapGet, h, ih, Ne.symm h]

theorem mapGet_eq_some_iff (m : AList) (k : String) (v : GoValue)
    (hn : (m.map Prod.fst).Nodup) : mapGet m k = some v ↔ (k, v) ∈ m := by
  induction m with
  | nil => simp [mapGet]
  | cons kv rest ih =>
    obtain ⟨k', v'⟩ := kv
    simp only [List.map_cons, List.nodup_cons] at hn
    by_cases h : k' = k
    · subst h
      simp only [mapGet, if_pos rfl, List.mem_cons]
      constructor
      · intro hv
        left
        simp at hv
        rw [hv]
      · intro hv
        rcases hv with hv | hv
        · simp [Prod.ext_iff] at hv
          simp [hv]
        · exfalso
          exact hn.1 (List.mem_map.mpr ⟨(k', v), hv, rfl⟩)
    · simp only [mapGet, if_neg h, List.mem_cons]
      rw [ih hn.2]
      constructor
      · intro hv; right; exact hv
      · intro hv
        rcases hv with hv | hv
        · exfalso
          have hx : k = k' := by
            simpa using congrArg Prod.fst hv
          exact h hx.symm
        · exact hv

theorem mapGet_perm (m₁ m₂ : AList) (k : String)
    (hn : (m₁.map Prod.fst).Nodup) (hp : List.Perm m₁ m₂) :
    mapGet m₁ k = mapGet m₂ k := by
  have hn₂ : (m₂.map Prod.fst).Nodup := ((hp.map Prod.fst).nodup_iff).mp hn
  rcases hg : mapGet m₁ k with _ | v
  · rw [mapGet_eq_none_iff] at hg
    rw [eq_comm, mapGet_eq_none_iff]
    intro hmem
    exact hg (((hp.map Prod.fst).mem_iff).mpr hmem)
  · rw [mapGet_eq_some_iff _ _ _ hn] at hg
    rw [eq_comm, mapGet_eq_some_iff _ _ _ hn₂]
    exact (hp.mem_iff).mp hg

theorem isPrefixOf_append : ∀ (p l : List Char), p.isPrefixOf l = true →
    ∃ t, l = p ++ t := by
  intro p
  induction p with
  | nil =>
    intro l _
    exact ⟨l, rfl⟩
  | cons c cs ih =>
    intro l h
    cases l with
    | nil => simp [List.isPrefixOf] at h
    | cons d ds =>
      simp only [List.isPrefixOf, Bool.and_eq_true, beq_iff_eq] at h
      obtain ⟨t, ht⟩ := ih ds h.2
      refine ⟨t, ?_⟩
      rw [← h.1, ht]
      rfl

theorem toAttr_key (cfg : MxjConfig) (kv : String × GoValue) (b : String × String)
    (h : toAttr cfg kv = Except.ok b) :
    b.1 = String.mk (kv.1.data.drop cfg.attrPre.length) := by
  unfold toAttr at h
  rcases hv : attrVal cfg kv.2 with _ | s
  · rw [hv] at h
    simp at h
  · rw [hv] at h
    have h' : (String.mk (kv.1.data.drop cfg.attrPre.length), s) = b := by simpa using h
    rw [← h']

theorem strip_inj (cfg : MxjConfig) (k₁ k₂ : String)
    (h₁ : isAttrKeyB cfg k₁ = true) (h₂ : isAttrKeyB cfg k₂ = true)
    (he : k₁.data.drop cfg.attrPre.length = k₂.data.drop cfg.attrPre.length) :
    k₁ = k₂ := by
  unfold isAttrKeyB at h₁ h₂
  simp only [Bool.and_eq_true, decide_eq_true_eq] at h₁ h₂
  obtain ⟨t₁, ht₁⟩ := isPrefixOf_append _ _ h₁.2
  obtain ⟨t₂, ht₂⟩ := isPrefixOf_append _ _ h₂.2
  apply strings_ext
  rw [ht₁, ht₂] at he ⊢
  rw [show cfg.attrPre.length = cfg.attrPre.data.length from rfl, List.drop_left,
    List.drop_left] at he
  rw [he]

theorem exMap_toAttr_keys_nodup (cfg : MxjConfig) :
    ∀ (fl : List (String × GoValue)) (l : List (String × String)),
    (∀ kv ∈ fl, isAttrKeyB cfg kv.1 = true) →
    (fl.map Prod.fst).Nodup →
    exMap (toAttr cfg) fl = Except.ok l →
    (l.map Prod.fst).Nodup := by
  intro fl
  induction fl with
  | nil =>
    intro l _ _ h
    simp only [exMap] at h
    have h' : ([] : List (String × String)) = l := by simpa using h
    rw [← h']
    simp
  | cons kv fl' ih =>
    intro l hall hn h
    simp only [exMap] at h
    rcases hfa : toAttr cfg kv with e | b
    · rw [hfa] at h
      simp at h
    · rw [hfa] at h
      rcases hrest : exMap (toAttr cfg) fl' with e | bs
      · rw [hrest] at h
        simp at h
      · rw [hrest] at h
        have h' : b :: bs = l := by simpa using h
        rw [← h']
        simp only [List.map_cons, List.nodup_cons] at hn ⊢
        refine ⟨?_, ih bs (fun x hx => hall x (List.mem_cons_of_mem _ hx)) hn.2 hrest⟩
        intro hmem
        obtain ⟨y, hy, hyfst⟩ := List.mem_map.mp hmem
        obtain ⟨x, hx, hfx⟩ := exMap_mem_source _ fl' bs hrest y hy
        have hb := toAttr_key cfg kv b hfa
        have hyk := toAttr_key cfg x y hfx
        have hmk : String.mk (kv.1.data.drop cfg.attrPre.length) =
            String.mk (x.1.data.drop cfg.attrPre.length) := by
          rw [← hb, ← hyk, hyfst]
        have hd : kv.1.data.drop cfg.attrPre.length = x.1.data.drop cfg.attrPre.length :=
          congrArg String.data hmk
        have hkk : kv.1 = x.1 :=
          strip_inj cfg _ _ (hall kv (List.mem_cons_self _ _))
            (hall x (List.mem_cons_of_mem _ hx)) hd
        exact hn.1 (hkk ▸ List.mem_map.mpr ⟨x, hx, rfl⟩)

theorem scanAttrs_keys_nodup (cfg : MxjConfig) (vv : AList)
    (hn : (vv.map Prod.fst).Nodup) (l : List (String × String))
    (h : scanAttrs cfg vv = Except.ok l) : (l.map Prod.fst).Nodup := by
  refine exMap_toAttr_keys_nodup cfg _ l (fun kv hkv => (List.mem_filter.mp hkv).2) ?_ h
  exact hn.sublist ((List.filter_sublist vv).map Prod.fst)

theorem scanAttrs_perm_ok (cfg : MxjConfig) (vv₁ vv₂ : AList)
    (hp : List.Perm vv₁ vv₂) (l₁ : List (String × String))
    (h : scanAttrs cfg vv₁ = Except.ok l₁) :
    ∃ l₂, scanAttrs cfg vv₂ = Except.ok l₂ ∧ List.Perm l₁ l₂ :=
  exMap_ok_perm _ _ _ (hp.filter _) l₁ h

theorem elemFilter_keys_nodup (cfg : MxjConfig) (vv : AList)
    (hn : (vv.map Prod.fst).Nodup) : ((elemFilter cfg vv).map Prod.fst).Nodup :=
  hn.sublist ((List.filter_sublist vv).map Prod.fst)

theorem marshalObj_perm (cfg : MxjConfig) (fuel : Nat) (doIndent : Bool) (key : String)
    (p : Pretty) (vv₁ vv₂ : AList) (s : String)
    (hp : List.Perm vv₁ vv₂) (hn : (vv₁.map Prod.fst).Nodup)
    (h : marshalMapToXmlIndent cfg fuel doIndent key (GoValue.obj vv₁) p = Except.ok s) :
    marshalMapToXmlIndent cfg fuel doIndent key (GoValue.obj vv₂) p = Except.ok s := by
  cases fuel with
  | zero => simp [marshalMapToXmlIndent] at h
  | succ fuel =>
    simp only [marshalMapToXmlIndent, coerceValue] at h ⊢
    rcases hs : scanAttrs cfg vv₁ with kv | attrs₁
    · rw [hs] at h
      simp at h
    · simp only [hs] at h
      obtain ⟨attrs₂, hs₂, hap⟩ := scanAttrs_perm_ok cfg vv₁ vv₂ hp attrs₁ hs
      simp only [hs₂]
      have hn₁ : (attrs₁.map Prod.fst).Nodup := scanAttrs_keys_nodup cfg vv₁ hn attrs₁ hs
      have e1 : sortByKey attrs₂ = sortByKey attrs₁ :=
        (sortByKey_eq_of_perm attrs₁ attrs₂ hap hn₁).symm
      have e2 : attrs₂.length = attrs₁.length := hap.length_eq.symm
      have e3 : vv₂.length = vv₁.length := hp.length_eq.symm
      have e4 : mapGet vv₂ cfg.textK = mapGet vv₁ cfg.textK :=
        (mapGet_perm vv₁ vv₂ cfg.textK hn hp).symm
      have e5 : sortByKey (elemFilter cfg vv₂) = sortByKey (elemFilter cfg vv₁) :=
        (sortByKey_eq_of_perm _ _ (hp.filter _) (elemFilter_keys_nodup cfg vv₁ hn)).symm
      rw [e1, e2, e3, e4, e5]
      exact h

theorem marshal_invalid_attr (cfg : MxjConfig) (fuel : Nat) (doIndent : Bool)
    (key : String) (p : Pretty) (vv : AList) (k : String) (v : GoValue)
    (hmem : (k, v) ∈ vv) (hk : isAttrKeyB cfg k = true)
    (hv : attrVal cfg v = none) :
    ∃ es, marshalMapToXmlIndent cfg fuel doIndent key (GoValue.obj vv) p =
      Except.error es := by
  have hbad : ∃ kv, scanAttrs cfg vv = Except.error kv := by
    apply exMap_error_of_bad (toAttr cfg) _ (k, v)
    · exact List.mem_filter.mpr ⟨hmem, hk⟩
    · intro y hy
      unfold toAttr at hy
      rw [hv] at hy
      simp at hy
  obtain ⟨kv, hkv⟩ := hbad
  cases fuel with
  | zero => exact ⟨("fuel exhausted", ""), rfl⟩
  | succ fuel =>
    refine ⟨("invalid attribute value for: " ++ kv.1 ++ ":<" ++ goTypeName kv.2 ++ ">",
      (if doIndent = true then p.padding else "") ++ ("<" ++ key)), ?_⟩
    simp only [marshalMapToXmlIndent, coerceValue, hkv]

/-! ## Claim theorems -/

/-- C1: Duplicate-sibling promotion in the decoder — the merge step
`addChild` stores the first child with a given key as the bare value,
promotes the entry to a two-element list (prior value first) on the
second occurrence, and appends each further occurrence; end to end,
decoding `<p><c>1</c><c>2</c></p>` yields `p = {c: ["1","2"]}` in
document order, and decoding `<p><c>1</c></p>` yields the unwrapped
`p = {c: "1"}`. -/
theorem C1_duplicate_sibling_promotion :
    (∀ (na : AList) (key : String) (val : GoValue),
       mapGet na key = none →
       addChild na key val = mapSet na key val ∧
       mapGet (addChild na key val) key = some val) ∧
    (∀ (na : AList) (key : String) (v val : GoValue),
       mapGet na key = some v → (∀ l, v ≠ GoValue.arr l) →
       mapGet (addChild na key val) key = some (GoValue.arr [v, val])) ∧
    (∀ (na : AList) (key : String) (l : List GoValue) (val : GoValue),
       mapGet na key = some (GoValue.arr l) →
       mapGet (addChild na key val) key = some (GoValue.arr (l ++ [val]))) ∧
    xmlToMapParser dc false 50 "" []
      [Tok.start "p" [], Tok.start "c" [], Tok.chardata "1", Tok.endEl,
       Tok.start "c" [], Tok.chardata "2", Tok.endEl, Tok.endEl] =
      Except.ok ([("p", GoValue.obj [("c", GoValue.arr [GoValue.str "1", GoValue.str "2"])])], []) ∧
    xmlToMapParser dc false 50 "" []
      [Tok.start "p" [], Tok.start "c" [], Tok.chardata "1", Tok.endEl, Tok.endEl] =
      Except.ok ([("p", GoValue.obj [("c", GoValue.str "1")])], []) :=
  ⟨fun na key val h =>
    ⟨addChild_fresh na key val h,
     by rw [addChild_fresh na key val h]; exact mapGet_mapSet_self na key val⟩,
   addChild_second, addChild_again, rfl, rfl⟩

/-- Witness for C1 at concrete inputs: first occurrence bare, second
promotes to a list, third appends. -/
theorem C1_duplicate_sibling_promotion_witness :
    mapGet (addChild [] "c" (GoValue.str "1")) "c" = some (GoValue.str "1") ∧
    mapGet (addChild [("c", GoValue.str "1")] "c" (GoValue.str "2")) "c" =
      some (GoValue.arr [GoValue.str "1", GoValue.str "2"]) ∧
    mapGet (addChild [("c", GoValue.arr [GoValue.str "1", GoValue.str "2"])] "c"
      (GoValue.str "3")) "c" =
      some (GoValue.arr [GoValue.str "1", GoValue.str "2", GoValue.str "3"]) :=
  ⟨(C1_duplicate_sibling_promotion.1 [] "c" (GoValue.str "1") rfl).2,
   C1_duplicate_sibling_promotion.2.1 [("c", GoValue.str "1")] "c" (GoValue.str "1")
     (GoValue.str "2") rfl (fun l h => GoValue.noConfusion h),
   C1_duplicate_sibling_promotion.2.2.1 [("c", GoValue.arr [GoValue.str "1", GoValue.str "2"])]
     "c" [GoValue.str "1", GoValue.str "2"] (GoValue.str "3") rfl⟩

/-- C2: Text-with-attributes shape and its round trip — decoding
`<e a="1">hi</e>` with the default configuration yields
`e = {-a: "1", $: "hi"}`; re-encoding that map emits `<e a="1">hi</e>`
(attribute first, text inline); and the text content of an element with
no attributes and no children is stored directly as the element's scalar
value with no wrapping. -/
theorem C2_text_with_attributes :
    xmlToMapParser dc false 50 "" []
      [Tok.start "e" [("a", "1")], Tok.chardata "hi", Tok.endEl] =
      Except.ok ([("e", GoValue.obj [("-a", GoValue.str "1"), ("$", GoValue.str "hi")])], []) ∧
    mapXml dc 50 noValidate
      [("e", GoValue.obj [("-a", GoValue.str "1"), ("$", GoValue.str "hi")])] none =
      (some "<e a=\"1\">hi</e>", none) ∧
    (∀ (name s : String) (r : Bool) (f : Nat), name ≠ "" →
      trimChars s dc.trimRunes = s → 0 < s.length →
      xmlToMapParser dc r (f + 3) "" [] [Tok.start name [], Tok.chardata s, Tok.endEl] =
        Except.ok ([(name, cast dc s r name)], [])) :=
  ⟨rfl, rfl, decode_simple_element⟩

/-- Witness for C2's general simple-element conjunct at concrete inputs. -/
theorem C2_text_with_attributes_witness :
    xmlToMapParser dc false 3 "" [] [Tok.start "x" [], Tok.chardata "hi", Tok.endEl] =
      Except.ok ([("x", cast dc "hi" false "x")], []) :=
  C2_text_with_attributes.2.2 "x" "hi" false 0 (by decide) rfl (by decide)

/-- C3 counterexample: the spec's example `"00123"` is accepted by the
float parse (`strconv.ParseFloat("00123", 64)` succeeds in Go), so with
casting enabled it becomes the number 123, not the literal string the
claim asserts. -/
theorem C3_caster_counterexample :
    cast dc "00123" true "v" = GoValue.float (GoFloat.finite 123 0) ∧
    cast dc "00123" true "v" ≠ GoValue.str "00123" := by
  constructor
  · rfl
  · intro h
    rw [show cast dc "00123" true "v" = GoValue.float (GoFloat.finite 123 0) from rfl] at h
    exact GoValue.noConfusion h

/-- C3 (amended): with casting enabled and default sub-toggles the cast
function tries the NaN/Inf screen, then (only when enabled) signed then
unsigned 64-bit integers, then the 64-bit float, then the guarded
boolean; the first success wins and otherwise the original string is
returned — so `"1"` casts to a number and never a boolean, `"true"`
casts to boolean, a string accepted by no enabled parse (e.g. `"12x"`)
is returned unchanged, while the spec's example `"00123"` is accepted by
the float parse and becomes the number 123. -/
theorem C3_caster_order_amended :
    (∀ (s t : String) (f : GoFloat),
       strToLower s ≠ "nan" → strToLower s ≠ "inf" → strToLower s ≠ "-inf" →
       goParseFloat s = some f →
       cast dc s true t = GoValue.float f) ∧
    (∀ (s t : String) (b : Bool),
       strToLower s ≠ "nan" → strToLower s ≠ "inf" → strToLower s ≠ "-inf" →
       goParseFloat s = none → 0 < s.length → s.length < 6 →
       (s.take 1 = "t" ∨ s.take 1 = "T" ∨ s.take 1 = "f" ∨ s.take 1 = "F") →
       goParseBool s = some b →
       cast dc s true t = GoValue.boolean b) ∧
    (∀ (s t : String),
       strToLower s ≠ "nan" → strToLower s ≠ "inf" → strToLower s ≠ "-inf" →
       goParseFloat s = none → goParseBool s = none →
       cast dc s true t = GoValue.str s) ∧
    (∀ (s t : String) (i : Int),
       strToLower s ≠ "nan" → strToLower s ≠ "inf" → strToLower s ≠ "-inf" →
       goParseInt s = some i →
       cast { dc with castToInt := true } s true t = GoValue.int64 i) ∧
    cast dc "1" true "k" = GoValue.float (GoFloat.finite 1 0) ∧
    cast dc "true" true "k" = GoValue.boolean true ∧
    cast dc "12x" true "k" = GoValue.str "12x" ∧
    cast dc "nan" true "k" = GoValue.str "nan" ∧
    cast { dc with castToInt := true } "9223372036854775808" true "k" =
      GoValue.uint64 9223372036854775808 ∧
    cast dc "00123" true "k" = GoValue.float (GoFloat.finite 123 0) :=
  ⟨cast_float_wins, cast_bool_after_float, cast_fallback_string, cast_int_first,
   rfl, rfl, rfl, rfl, rfl, rfl⟩

/-- Witness for C3's general conjuncts at concrete inputs. -/
theorem C3_caster_order_amended_witness :
    cast dc "2.5" true "k" = GoValue.float (GoFloat.finite 25 (-1)) ∧
    cast dc "f" true "k" = GoValue.boolean false ∧
    cast dc "x1" true "k" = GoValue.str "x1" ∧
    cast { dc with castToInt := true } "7" true "k" = GoValue.int64 7 :=
  ⟨C3_caster_order_amended.1 "2.5" "k" (GoFloat.finite 25 (-1))
     (by decide) (by decide) (by decide) rfl,
   C3_caster_order_amended.2.1 "f" "k" false (by decide) (by decide) (by decide)
     rfl (by decide) (by decide) (Or.inr (Or.inr (Or.inl rfl))) rfl,
   C3_caster_order_amended.2.2.1 "x1" "k" (by decide) (by decide) (by decide) rfl rfl,
   C3_caster_order_amended.2.2.2.1 "7" "k" 7 (by decide) (by decide) (by decide) rfl⟩

/-- C4: Empty-element behaviour both ways — decoding an element with no
attributes, no children and no non-whitespace text yields the empty
string scalar (the tokenizer delivers `<e></e>` and `<e/>` as the same
two start/end events, so one token list covers both spellings); encoding
the empty string scalar emits `<e/>` under the default policy and
`<e></e>` under the Go-style policy. -/
theorem C4_empty_element :
    xmlToMapParser dc false 50 "" [] [Tok.start "e" [], Tok.endEl] =
      Except.ok ([("e", GoValue.str "")], []) ∧
    mapXml dc 50 noValidate [("e", GoValue.str "")] none = (some "<e/>", none) ∧
    mapXml { dc with useGoXmlEmptyElem := true } 50 noValidate
      [("e", GoValue.str "")] none = (some "<e></e>", none) :=
  ⟨rfl, rfl, rfl⟩

/-- C5 counterexample: for the single-entry map `{k: [one map]}` (a list
all of whose elements are maps) the claim predicts both encoders use `k`
as the root tag; `Map.Xml` does, but `Map.XmlIndent` wraps any list —
even a list of maps — in the default root `doc`. -/
theorem C5_root_tag_counterexample :
    ((mapXml dc 50 noValidate
       [("k", GoValue.arr [GoValue.obj [("a", GoValue.str "1")]])] none).1.getD "").take 2 =
      "<k" ∧
    ((mapXmlIndent dc 50 noValidate "" ""
       [("k", GoValue.arr [GoValue.obj [("a", GoValue.str "1")]])] none).1.getD "").take 4 =
      "<doc" ∧
    ((mapXmlIndent dc 50 noValidate "" ""
       [("k", GoValue.arr [GoValue.obj [("a", GoValue.str "1")]])] none).1.getD "").take 2 ≠
      "<k" :=
  ⟨rfl, rfl, by decide⟩

/-- C5 (amended): root-tag resolution at encode time — for the plain
encoder `Map.Xml`, a single-entry map with no explicit root uses its key
as root tag unless the value is a list containing at least one non-map
element, in which case the default root `doc` wraps the map; an explicit
root tag, or a map with more (or fewer) than one entry, is wrapped in
that tag (or the default).  The indented encoder `Map.XmlIndent` differs:
it uses the default root whenever the single value is any list, even a
list of maps. -/
theorem C5_root_tag_amended :
    (∀ (cfg : MxjConfig) (fuel : Nat) (key : String) (v : GoValue), isArrV v = false →
       mapXmlRaw cfg fuel [(key, v)] none =
         unpackRes (marshalMapToXmlIndent cfg fuel false key v p0)) ∧
    (∀ (cfg : MxjConfig) (fuel : Nat) (key : String) (l : List GoValue),
       l.all isObjV = true →
       mapXmlRaw cfg fuel [(key, GoValue.arr l)] none =
         unpackRes (marshalMapToXmlIndent cfg fuel false key (GoValue.arr l) p0)) ∧
    (∀ (cfg : MxjConfig) (fuel : Nat) (key : String) (l : List GoValue),
       l.all isObjV = false →
       mapXmlRaw cfg fuel [(key, GoValue.arr l)] none =
         unpackRes (marshalMapToXmlIndent cfg fuel false DefaultRootTag
           (GoValue.obj [(key, GoValue.arr l)]) p0)) ∧
    (∀ (cfg : MxjConfig) (fuel : Nat) (m : AList) (rt : String),
       mapXmlRaw cfg fuel m (some rt) =
         unpackRes (marshalMapToXmlIndent cfg fuel false rt (GoValue.obj m) p0)) ∧
    (∀ (cfg : MxjConfig) (fuel : Nat) (m : AList), m.length ≠ 1 →
       mapXmlRaw cfg fuel m none =
         unpackRes (marshalMapToXmlIndent cfg fuel false DefaultRootTag
           (GoValue.obj m) p0)) ∧
    (∀ (cfg : MxjConfig) (fuel : Nat) (pre ind key : String) (l : List GoValue),
       mapXmlIndentRaw cfg fuel pre ind [(key, GoValue.arr l)] none =
         unpackRes (marshalMapToXmlIndent cfg fuel true DefaultRootTag
           (GoValue.obj [(key, GoValue.arr l)])
           { indent := ind, cnt := 0, padding := pre, mapDepth := 0, start := 0 })) ∧
    (∀ (cfg : MxjConfig) (fuel : Nat) (pre ind key : String) (v : GoValue),
       isArrV v = false →
       mapXmlIndentRaw cfg fuel pre ind [(key, v)] none =
         unpackRes (marshalMapToXmlIndent cfg fuel true key v
           { indent := ind, cnt := 0, padding := pre, mapDepth := 0, start := 0 })) ∧
    mapXml dc 50 noValidate [("k", GoValue.str "v")] none = (some "<k>v</k>", none) ∧
    mapXml dc 50 noValidate [("k", GoValue.arr [GoValue.str "s"])] none =
      (some "<doc><k>s</k></doc>", none) :=
  ⟨mapXmlRaw_root_single, mapXmlRaw_root_list_objs, mapXmlRaw_root_list_mixed,
   mapXmlRaw_root_explicit, mapXmlRaw_root_multi, mapXmlIndentRaw_root_list,
   mapXmlIndentRaw_root_single, rfl, rfl⟩

/-- Witness for C5's dispatch conjuncts at concrete inputs. -/
theorem C5_root_tag_amended_witness :
    mapXmlRaw dc 30 [("k", GoValue.str "v")] none =
      unpackRes (marshalMapToXmlIndent dc 30 false "k" (GoValue.str "v") p0) ∧
    mapXmlRaw dc 30 [("k", GoValue.arr [GoValue.str "s"])] none =
      unpackRes (marshalMapToXmlIndent dc 30 false DefaultRootTag
        (GoValue.obj [("k", GoValue.arr [GoValue.str "s"])]) p0) :=
  ⟨C5_root_tag_amended.1 dc 30 "k" (GoValue.str "v") rfl,
   C5_root_tag_amended.2.2.1 dc 30 "k" [GoValue.str "s"] rfl⟩

/-- C6: Canonical encode ordering — encoding a map is invariant under
permutation of its entries (for distinct keys, as Go maps guarantee), so
the emitted order depends on the key set alone; the shared sort
`sortByKey` yields a key-sorted permutation of its input (used for the
attribute list, whose keys are already the bare prefix-stripped names,
and for the element list); the element list excludes the reserved text
key and all attribute-prefixed keys; concretely, a map listing `-b`
before `-a` still encodes with `a` before `b`. -/
theorem C6_canonical_encode_ordering :
    (∀ (cfg : MxjConfig) (fuel : Nat) (doIndent : Bool) (key : String) (p : Pretty)
       (vv₁ vv₂ : AList) (s : String),
       List.Perm vv₁ vv₂ → (vv₁.map Prod.fst).Nodup →
       marshalMapToXmlIndent cfg fuel doIndent key (GoValue.obj vv₁) p = Except.ok s →
       marshalMapToXmlIndent cfg fuel doIndent key (GoValue.obj vv₂) p = Except.ok s) ∧
    (∀ (β : Type) (l : List (String × β)),
       List.Sorted keyLeB (sortByKey l) ∧ List.Perm (sortByKey l) l) ∧
    (∀ (cfg : MxjConfig) (vv : AList) (kv : String × GoValue), kv ∈ elemFilter cfg vv →
       kv.1 ≠ cfg.textK ∧ isAttrKeyB cfg kv.1 = false) ∧
    mapXml dc 50 noValidate
      [("e", GoValue.obj [("-b", GoValue.str "2"), ("-a", GoValue.str "1")])] none =
      (some "<e a=\"1\" b=\"2\"/>", none) :=
  ⟨marshalObj_perm,
   fun β l => ⟨sortByKey_sorted l, sortByKey_perm l⟩,
   fun cfg vv kv hkv => by
     have h := (List.mem_filter.mp hkv).2
     simp only [Bool.and_eq_true, decide_eq_true_eq, Bool.not_eq_true'] at h
     exact ⟨h.1, by simpa using h.2⟩,
   rfl⟩

/-- Witness for C6's permutation-invariance at a concrete pair of maps
listing the same attributes in opposite orders. -/
theorem C6_canonical_encode_ordering_witness :
    marshalMapToXmlIndent dc 40 false "e"
      (GoValue.obj [("-a", GoValue.str "1"), ("-b", GoValue.str "2")]) p0 =
      Except.ok "<e a=\"1\" b=\"2\"/>" :=
  C6_canonical_encode_ordering.1 dc 40 false "e" p0
    [("-b", GoValue.str "2"), ("-a", GoValue.str "1")]
    [("-a", GoValue.str "1"), ("-b", GoValue.str "2")] "<e a=\"1\" b=\"2\"/>"
    (List.Perm.swap ("-a", GoValue.str "1") ("-b", GoValue.str "2") [])
    (by decide) rfl

/-- C7: Invalid attribute values are a hard encode error — for every map
entry whose key carries the attribute prefix, a value outside
{string, byte slice, boolean, integer, float} makes the encoder return
an error; the error propagates out of a nested document encode (the
whole encode is aborted, `Map.Xml` returning the error); and only the
struct-marshal fallback failure is locally recovered with the `UNKNOWN`
placeholder so the rest of the document still encodes. -/
theorem C7_invalid_attribute_error :
    (∀ (cfg : MxjConfig) (fuel : Nat) (doIndent : Bool) (key : String) (p : Pretty)
       (vv : AList) (k : String) (v : GoValue),
       (k, v) ∈ vv → isAttrKeyB cfg k = true → attrVal cfg v = none →
       ∃ es, marshalMapToXmlIndent cfg fuel doIndent key (GoValue.obj vv) p =
         Except.error es) ∧
    mapXml dc 50 noValidate
      [("r", GoValue.obj [("c", GoValue.obj [("-a", GoValue.obj [])])])] none =
      (some "<r><c",
       some "invalid attribute value for: -a:<map[string]interface \x7b\x7d>") ∧
    mapXml dc 50 noValidate
      [("r", GoValue.obj [("x", GoValue.mapSlice [[("a", GoValue.str "1")]])])] none =
      (some "<r><x>>UNKNOWN/></r>", none) :=
  ⟨marshal_invalid_attr, rfl, rfl⟩

/-- Witness for C7's general conjunct at a concrete invalid attribute. -/
theorem C7_invalid_attribute_error_witness :
    ∃ es, marshalMapToXmlIndent dc 30 false "e"
      (GoValue.obj [("-a", GoValue.obj [])]) p0 = Except.error es :=
  C7_invalid_attribute_error.1 dc 30 false "e" p0 [("-a", GoValue.obj [])] "-a"
    (GoValue.obj []) (List.mem_singleton.mpr rfl) rfl rfl

/-- C8: Decode error propagation — a tokenizer error other than clean
end-of-stream makes the decode return the wrapped error with no result
map (the `Except` carries no partial tree), also from inside a nested
element; clean end-of-stream is returned as the distinct `eofErr` value;
and the bulk reader loop tags the error with its read count
(`[xmlReader: 1] …`). -/
theorem C8_decode_error_propagation :
    (∀ (r : Bool) (f : Nat) (skey : String) (a : List (String × String))
       (toks : List Tok) (msg : String),
       xmlToMapParser dc r (f + 1) skey a (Tok.errTok msg :: toks) =
         Except.error (PErr.tokenErr msg)) ∧
    (∀ (r : Bool) (f : Nat) (skey : String) (a : List (String × String)),
       xmlToMapParser dc r (f + 1) skey a [] = Except.error PErr.eofErr) ∧
    (∀ msg, PErr.tokenErr msg ≠ PErr.eofErr) ∧
    xmlToMapParser dc false 20 "" []
      [Tok.start "p" [], Tok.start "c" [], Tok.errTok "bad"] =
      Except.error (PErr.tokenErr "bad") ∧
    handleXmlReader dc 50 (fun _ => true) (fun _ => false) 10 [Tok.errTok "bad"] 0 =
      Except.ok (some "[xmlReader: 1] xml.Decoder.Token() - bad") :=
  ⟨decode_err_token, decode_eof, fun msg h => PErr.noConfusion h, rfl, rfl⟩

/-- Witness for C8's general conjuncts at concrete inputs. -/
theorem C8_decode_error_propagation_witness :
    xmlToMapParser dc false 1 "z" [] [Tok.errTok "oops"] =
      Except.error (PErr.tokenErr "oops") ∧
    PErr.tokenErr "oops" ≠ PErr.eofErr :=
  ⟨C8_decode_error_propagation.1 false 0 "z" [] [] "oops",
   C8_decode_error_propagation.2.2.1 "oops"⟩

/-- C9 counterexample: enabling the post-encode check can turn a failing
encode into a success — encoding `{a: struct}` where the struct's
`xml.Marshal` fails returns the error with the check disabled, but with
the check enabled the validation loop overwrites the error and the empty
buffer re-tokenizes cleanly, so the same encode reports success. -/
theorem C9_post_encode_validation_counterexample :
    mapXml dc 50 goTokenizeValidate [("a", GoValue.structVal none)] none =
      (some "", some "xml: unsupported type") ∧
    mapXml { dc with xmlCheckIsValid := true } 50 goTokenizeValidate
      [("a", GoValue.structVal none)] none = (some "", none) :=
  ⟨rfl, rfl⟩

/-- C9 (amended): with the well-formedness check enabled, both encoders
re-tokenize their own output; a re-parse failure returns the tokenizer's
error and a nil byte result; but the validation loop's assignment
overwrites any earlier encode error, so when the (possibly partial)
buffer re-tokenizes cleanly the encode is reported successful even if
the marshal step had failed — concretely, a root-level struct-marshal
failure leaves an empty buffer and is turned into a success. -/
theorem C9_post_encode_validation_amended :
    (∀ (cfg : MxjConfig) (validate : String → Option String) (fuel : Nat)
       (m : AList) (rt : Option String) (te : String),
       cfg.xmlCheckIsValid = true →
       validate (mapXmlRaw cfg fuel m rt).1 = some te →
       mapXml cfg fuel validate m rt = (none, some te)) ∧
    (∀ (cfg : MxjConfig) (validate : String → Option String) (fuel : Nat)
       (m : AList) (rt : Option String),
       cfg.xmlCheckIsValid = true →
       validate (mapXmlRaw cfg fuel m rt).1 = none →
       mapXml cfg fuel validate m rt = (some (mapXmlRaw cfg fuel m rt).1, none)) ∧
    (∀ (cfg : MxjConfig) (validate : String → Option String) (fuel : Nat)
       (pre ind : String) (m : AList) (rt : Option String) (te : String),
       cfg.xmlCheckIsValid = true →
       validate (mapXmlIndentRaw cfg fuel pre ind m rt).1 = some te →
       mapXmlIndent cfg fuel validate pre ind m rt = (none, some te)) ∧
    mapXml { dc with xmlCheckIsValid := true } 50 goTokenizeValidate
      [("a", GoValue.structVal none)] none = (some "", none) :=
  ⟨xml_check_fail, xml_check_pass, xmlIndent_check_fail, rfl⟩

/-- Witness for C9's validation-failure conjunct at a concrete encode
whose output the tokenizer model rejects. -/
theorem C9_post_encode_validation_amended_witness :
    mapXml { dc with xmlCheckIsValid := true } 50 goTokenizeValidate
      [("e", GoValue.str "<")] none =
      (none, some "XML syntax error: invalid start tag") :=
  C9_post_encode_validation_amended.1 { dc with xmlCheckIsValid := true }
    goTokenizeValidate 50 [("e", GoValue.str "<")] none
    "XML syntax error: invalid start tag" rfl rfl

/-- C10: Every successful decode returns a singleton map — a successful
call for an element frame yields exactly the one entry keyed by the
(case/snake-normalized) tag name, and a successful top-level decode
likewise yields a map with exactly one key; the decoder never returns a
successful map with zero or two or more entries. -/
theorem C10_singleton_decode :
    (∀ (cfg : MxjConfig) (r : Bool) (fuel : Nat) (skey : String)
       (a : List (String × String)) (toks : List Tok) (m : AList) (rest : List Tok),
       normTag cfg skey ≠ "" →
       xmlToMapParser cfg r fuel skey a toks = Except.ok (m, rest) →
       ∃ v, m = [(normTag cfg skey, v)]) ∧
    (∀ (cfg : MxjConfig) (r : Bool) (fuel : Nat) (toks : List Tok)
       (m : AList) (rest : List Tok),
       xmlToMapParser cfg r fuel "" [] toks = Except.ok (m, rest) →
       ∃ kk v, m = [(kk, v)]) :=
  ⟨decode_singleton_frame, decode_singleton_top⟩

/-- Witness for C10 at a concrete decode. -/
theorem C10_singleton_decode_witness :
    ∃ v, [("e", GoValue.str "")] = [(normTag dc "e", v)] :=
  C10_singleton_decode.1 dc false 10 "e" [] [Tok.endEl] [("e", GoValue.str "")] []
    (by decide) rfl

end Mxj
